import Mathlib

/-!
# cloudflare-api: `main.go`

A shallow embedding of the command-line DNS record manager (`src/go/old/main-001.go`).

Conventions of the embedding:

* A Go `string` is a Lean `String` (a sequence of characters). The only string
  operations of the program are concatenation, equality and the search for `":"`.
* A Go `error` is the text that `err.Error()` gives (`GoError`).
* A Go `int` is an `Int`; the program does no arithmetic on the `ttl`, and the counters
  of `processDNSRecords` are bounded by the length of a slice, so no wrap-around can occur.
* The Cloudflare client (`*cloudflare.API`) is an external collaborator. It is a state
  machine over an arbitrary state type `σ`: every call receives the current state of the
  remote side and returns the next one together with its result.
* The file system (`ioutil.ReadFile`), the client constructor
  (`cloudflare.NewWithAPIToken`) and the order in which a `range` statement visits a map
  are parameters of a run (`Env`). `json.Unmarshal` into `Credentials` is modelled on the
  parsed content of the file.
* `fmt.Sscan` into an `int` is modelled after the Go library (`fmt/scan.go`,
  `strconv/atoi.go`), for a platform whose `int` has 64 bits.
* Side effects are recorded, in program order, in a trace of `Event`s.
* `log.Fatal`/`log.Fatalf` write their message to standard error (the date prefix of the
  `log` package is left out) and end the process with status 1.
-/

namespace CloudflareAPI

/-! ## Go library functions used by the program -/

/-- The text of a Go `error` value. -/
abbrev GoError := String

/-- Go `strings.Index` on character lists: the position of the first occurrence of
`substr`, or `none` where Go returns `-1`. -/
def indexChars (substr : List Char) : List Char → Option Nat
  | [] => if substr.isEmpty then some 0 else none
  | c :: cs =>
    if substr.isPrefixOf (c :: cs) then some 0
    else (indexChars substr cs).map (fun i => i + 1)

/-- Go `strings.Index(s, substr)`. -/
def stringsIndex (s substr : String) : Int :=
  match indexChars substr.data s.data with
  | some i => (i : Int)
  | none => -1

/-- Go `strings.Contains(s, substr)`, which is `Index(s, substr) >= 0`. -/
def stringsContains (s substr : String) : Bool :=
  decide (0 ≤ stringsIndex s substr)

/-- The loop of Go `strings.genSplit` for a non-empty separator: at most `n` cuts, each at
the first occurrence of `sep` in what is left; the rest is the last piece. -/
def genSplitLoop (sep : List Char) : Nat → List Char → List (List Char)
  | 0, s => [s]
  | n + 1, s =>
    match indexChars sep s with
    | none => [s]
    | some m => s.take m :: genSplitLoop sep n (s.drop (m + sep.length))

/-- Go `strings.explode(s, n)`, the case of an empty separator: the first `n - 1`
characters one by one, then the rest. The caller passes `n ≤ s.length`. -/
def explode : Nat → List Char → List (List Char)
  | 0, _ => []
  | 1, s => [s]
  | _ + 2, [] => [[]]
  | n + 2, c :: cs => [c] :: explode (n + 1) cs

/-- Go `strings.SplitN(s, sep, n)`. -/
def stringsSplitN (s sep : String) (n : Int) : List String :=
  if n = 0 then []
  else if sep = "" then
    let l := s.data.length
    let k := if n < 0 ∨ (l : Int) < n then l else n.toNat
    (explode k s.data).map String.mk
  else
    -- the cap on `n` only bounds the slice Go allocates: the loop stops at the first
    -- search that fails, and there are never more than `len(s) + 1` pieces
    let k := if n < 0 ∨ (s.data.length : Int) + 1 < n then s.data.length + 1 else n.toNat
    (genSplitLoop sep.data (k - 1) s.data).map String.mk

/-- Go `%d` of an `int`. -/
def formatInt : Int → String
  | Int.ofNat m => Nat.repr m
  | Int.negSucc m => "-" ++ Nat.repr (m + 1)

/-- The value of `time.Second`, in nanoseconds. -/
def timeSecond : Nat := 1000000000

/-! ### `fmt.Sscan` into an `int`

The scanner of `fmt/scan.go` (`ss`) and `strconv.ParseInt`, for the one call the program
makes, `fmt.Sscan(arg, &ttl)`: verb `v`, one operand of type `*int`, newlines counted as
space. A Go panic inside the scanner, which `Sscan` turns into its error result, is the
value `none`; the operand is then left as it was. -/

/-- Go `fmt.isSpace`. -/
def isSpace (r : Char) : Bool :=
  let n := r.toNat
  decide ((0x0009 ≤ n ∧ n ≤ 0x000d) ∨ n = 0x0020 ∨ n = 0x0085 ∨ n = 0x00a0 ∨ n = 0x1680 ∨
    (0x2000 ≤ n ∧ n ≤ 0x200a) ∨ (0x2028 ≤ n ∧ n ≤ 0x2029) ∨ n = 0x202f ∨ n = 0x205f ∨
    n = 0x3000)

/-- Go `fmt.ss`, the scanner state: the token gathered so far (`buf`) and the input that is
left to read. -/
structure ss where
  buf : List Char
  input : List Char

/-- Go `(*ss).SkipSpace` when newlines count as space: every leading space is read. -/
def ss.SkipSpace (s : ss) : ss :=
  ⟨s.buf, s.input.dropWhile isSpace⟩

/-- Go `(*ss).peek`: whether the next character is one of `ok`. -/
def ss.peek (s : ss) (ok : List Char) : Bool :=
  match s.input with
  | [] => false
  | r :: _ => decide (r ∈ ok)

/-- Go `(*ss).accept`: the next character is moved to the token when it is one of `ok`. -/
def ss.accept (s : ss) (ok : List Char) : ss × Bool :=
  match s.input with
  | [] => (s, false)
  | r :: rest => if r ∈ ok then (⟨s.buf ++ [r], rest⟩, true) else (s, false)

/-- Go `fmt.binaryDigits`. -/
def binaryDigits : List Char := "01".data

/-- Go `fmt.octalDigits`. -/
def octalDigits : List Char := "01234567".data

/-- Go `fmt.decimalDigits`. -/
def decimalDigits : List Char := "0123456789".data

/-- Go `fmt.hexadecimalDigits`. -/
def hexadecimalDigits : List Char := "0123456789aAbBcCdDeEfF".data

/-- Go `fmt.sign`. -/
def sign : List Char := "+-".data

/-- Go `(*ss).scanBasePrefix`: the digits allowed after the prefix, whether a digit was
already read, and the state after the prefix. The base is always 0 (`ParseInt` finds it
from the token). -/
def ss.scanBasePrefix (s : ss) : List Char × Bool × ss :=
  if s.peek "0".data = false then (decimalDigits ++ "_".data, false, s)
  else
    let s := (s.accept "0".data).1
    if s.peek "bB".data = true then (binaryDigits ++ "_".data, true, (s.accept "bB".data).1)
    else if s.peek "oO".data = true then
      (octalDigits ++ "_".data, true, (s.accept "oO".data).1)
    else if s.peek "xX".data = true then
      (hexadecimalDigits ++ "_".data, true, (s.accept "xX".data).1)
    else (octalDigits ++ "_".data, true, s)

/-- The loop `for s.accept(digits) {}` of Go `(*ss).scanNumber`, on the token and the
input. -/
def acceptLoop (ok : List Char) : List Char → List Char → ss
  | buf, [] => ⟨buf, []⟩
  | buf, r :: rest => if r ∈ ok then acceptLoop ok (buf ++ [r]) rest else ⟨buf, r :: rest⟩

/-- Go `(*ss).scanNumber`: the token, or `none` at the end of the input or when no digit
comes first. -/
def ss.scanNumber (s : ss) (digits : List Char) (haveDigits : Bool) : Option (List Char) :=
  if haveDigits = true then some (acceptLoop digits s.buf s.input).buf
  else if s.input = [] then none
  else if (s.accept digits).2 = false then none
  else some (acceptLoop digits (s.accept digits).1.buf (s.accept digits).1.input).buf

/-- Go `strconv.lower`: `c | ('x' - 'X')`, on the code of the character. -/
def lower (c : Char) : Nat :=
  c.toNat ||| 0x20

/-- The largest `uint64`. -/
def maxUint64 : Nat := 2 ^ 64 - 1

/-- The loop of Go `strconv.ParseUint` with base argument 0 and bit size 64: the number
read so far and whether an underscore was seen; `none` for a syntax or range error. -/
def parseUintLoop (base : Nat) : List Char → Nat → Bool → Option (Nat × Bool)
  | [], n, underscores => some (n, underscores)
  | c :: cs, n, underscores =>
    if c = '_' then parseUintLoop base cs n true
    else
      let digit : Option Nat :=
        if '0' ≤ c ∧ c ≤ '9' then some (c.toNat - '0'.toNat)
        else if 'a'.toNat ≤ lower c ∧ lower c ≤ 'z'.toNat then
          some (lower c - 'a'.toNat + 10)
        else none
      match digit with
      | none => none
      | some d =>
        if base ≤ d then none
        else if maxUint64 / base + 1 ≤ n then none
        else if maxUint64 < n * base + d then none
        else parseUintLoop base cs (n * base + d) underscores

/-- The loop of Go `strconv.underscoreOK`; `saw` is the kind of the last character. -/
def underscoreOKLoop (hex : Bool) : List Char → Char → Bool
  | [], saw => decide (saw ≠ '_')
  | c :: cs, saw =>
    if ('0' ≤ c ∧ c ≤ '9') ∨ (hex = true ∧ 'a'.toNat ≤ lower c ∧ lower c ≤ 'f'.toNat) then
      underscoreOKLoop hex cs '0'
    else if c = '_' then
      if saw ≠ '0' then false else underscoreOKLoop hex cs '_'
    else if saw = '_' then false
    else underscoreOKLoop hex cs '!'

/-- Go `strconv.underscoreOK`: underscores only between digits or between a base prefix
and a digit. -/
def underscoreOK (s : List Char) : Bool :=
  let s := if s.head? = some '-' ∨ s.head? = some '+' then s.drop 1 else s
  if 2 ≤ s.length ∧ s.head? = some '0' ∧
      (lower (s.getD 1 '0') = 'b'.toNat ∨ lower (s.getD 1 '0') = 'o'.toNat
        ∨ lower (s.getD 1 '0') = 'x'.toNat) then
    underscoreOKLoop (decide (lower (s.getD 1 '0') = 'x'.toNat)) (s.drop 2) '0'
  else underscoreOKLoop false s '^'

/-- Go `strconv.ParseUint(s, 0, 64)`. Go works on the bytes of `s`; the tokens the scanner
passes hold only ASCII characters, for which bytes and characters are the same. -/
def ParseUint (s : List Char) : Option Nat :=
  if s = [] then none
  else
    let prefixed : Nat × List Char :=
      if s.head? = some '0' then
        if 3 ≤ s.length ∧ lower (s.getD 1 '0') = 'b'.toNat then (2, s.drop 2)
        else if 3 ≤ s.length ∧ lower (s.getD 1 '0') = 'o'.toNat then (8, s.drop 2)
        else if 3 ≤ s.length ∧ lower (s.getD 1 '0') = 'x'.toNat then (16, s.drop 2)
        else (8, s.drop 1)
      else (10, s)
    match parseUintLoop prefixed.1 prefixed.2 0 false with
    | none => none
    | some (n, underscores) =>
      if underscores = true ∧ underscoreOK s = false then none else some n

/-- Go `strconv.ParseInt(s, 0, 64)`. -/
def ParseInt (s : List Char) : Option Int :=
  if s = [] then none
  else
    let neg : Bool := decide (s.head? = some '-')
    let digits := if s.head? = some '+' ∨ s.head? = some '-' then s.drop 1 else s
    match ParseUint digits with
    | none => none
    | some un =>
      if neg = false ∧ 2 ^ 63 ≤ un then none
      else if neg = true ∧ 2 ^ 63 < un then none
      else some (if neg = true then -(un : Int) else (un : Int))

/-- Go `(*ss).scanInt` for the verb `v` and 64 bits. -/
def ss.scanInt (s : ss) : Option Int :=
  let s := s.SkipSpace
  if s.input = [] then none
  else
    let s := (s.accept sign).1
    let found := s.scanBasePrefix
    match found.2.2.scanNumber found.1 found.2.1 with
    | none => none
    | some tok => ParseInt tok

/-- Go `fmt.Sscan(str, &ttl)` with `ttl` an `int`: the value stored in `ttl`, or `none`
when `Sscan` reports an error and stores nothing. -/
def fmtSscanInt (str : String) : Option Int :=
  ss.scanInt ⟨[], str.data⟩

/-! ## The Cloudflare client -/

/-- Go `cloudflare.CreateDNSRecordParams`, the fields the program sets. -/
structure CreateDNSRecordParams where
  Type_ : String
  Name : String
  Content : String
  TTL : Int
deriving DecidableEq

/-- Go `cloudflare.ListDNSRecordsParams`, the field the program sets. The zero value
(`Type_ = ""`) is the listing of every record. -/
structure ListDNSRecordsParams where
  Type_ : String
deriving DecidableEq

/-- Go `cloudflare.DNSRecord`, the fields the program reads. `Proxied` is a `*bool`. -/
structure DNSRecord where
  Type_ : String
  Name : String
  Content : String
  TTL : Int
  Proxied : Option Bool
deriving DecidableEq

/-- Go `*cloudflare.API`: the two calls the program makes, as transitions of the remote
state. The first argument after the state is the zone identifier. -/
structure API (σ : Type) where
  createDNSRecord : σ → String → CreateDNSRecordParams → σ × Option GoError
  listDNSRecords : σ → String → ListDNSRecordsParams → σ × List DNSRecord × Option GoError

/-- The observable effects of the program. -/
inductive Event where
  | createDNSRecord (zoneID : String) (params : CreateDNSRecordParams)
  | listDNSRecords (zoneID : String) (params : ListDNSRecordsParams)
  | sleep (nanoseconds : Nat)
  | stdout (text : String)
  | stderr (text : String)
deriving DecidableEq

/-- The outcome of running a piece of the program from a remote state: the state
reached, the effects in order, and the value returned. -/
structure Run (σ α : Type) where
  state : σ
  trace : List Event
  value : α

/-! ## The program -/

/-- Go `addDNSRecord`: one `CreateDNSRecord` call; returns its error. -/
def addDNSRecord {σ : Type} (api : API σ) (zoneID recordType name content : String)
    (ttl : Int) (s : σ) : Run σ (Option GoError) :=
  let params : CreateDNSRecordParams := ⟨recordType, name, content, ttl⟩
  let r := api.createDNSRecord s zoneID params
  ⟨r.1, [Event.createDNSRecord zoneID params], r.2⟩

/-- Go `addSegmentedTXTRecord`: the `for ... range contents` loop, one iteration per
head of the list. -/
def addSegmentedTXTRecord {σ : Type} (api : API σ) (zoneID name : String) :
    List String → Int → σ → Run σ (Option GoError)
  | [], _, s => ⟨s, [], none⟩
  | content :: rest, ttl, s =>
    let parts := stringsSplitN content ":" 2
    if parts.length ≠ 2 then
      ⟨s, [], some ("invalid content format: " ++ content)⟩
    else
      let segmentNum := parts.getD 0 ""
      let segmentContent := parts.getD 1 ""
      let r := addDNSRecord api zoneID "TXT" name (segmentNum ++ ":" ++ segmentContent) ttl s
      match r.value with
      | some err => ⟨r.state, r.trace, some err⟩
      | none =>
        let r' := addSegmentedTXTRecord api zoneID name rest ttl r.state
        ⟨r'.state, r.trace ++ Event.sleep timeSecond :: r'.trace, r'.value⟩

/-- Go `getDNSRecords`: `ListDNSRecords` with the zero parameters. -/
def getDNSRecords {σ : Type} (api : API σ) (zoneID : String) (s : σ) :
    Run σ (List DNSRecord × Option GoError) :=
  let params : ListDNSRecordsParams := ⟨""⟩
  let r := api.listDNSRecords s zoneID params
  ⟨r.1, [Event.listDNSRecords zoneID params], r.2⟩

/-- Go `getDNSRecordsByType`: `ListDNSRecords` with `Type` set. -/
def getDNSRecordsByType {σ : Type} (api : API σ) (zoneID recordType : String) (s : σ) :
    Run σ (List DNSRecord × Option GoError) :=
  let params : ListDNSRecordsParams := ⟨recordType⟩
  let r := api.listDNSRecords s zoneID params
  ⟨r.1, [Event.listDNSRecords zoneID params], r.2⟩

/-- Go `typeCounts[k]++` on a `map[string]int`, kept as an association list with one
entry per key (a missing key counts from zero). -/
def mapIncrement : List (String × Nat) → String → List (String × Nat)
  | [], k => [(k, 1)]
  | (k', v) :: rest, k =>
    if k' = k then (k', v + 1) :: rest else (k', v) :: mapIncrement rest k

/-- The order in which a Go `for ... range` statement visits the entries of a map. The
language leaves it unspecified (the runtime randomises it), so it is a parameter of the
run: any rearrangement of the entries. -/
structure MapRange where
  order : List (String × Nat) → List (String × Nat)
  perm : ∀ m, List.Perm (order m) m

/-- Go `processDNSRecords`: the texts written to standard output, one per
`Println`/`Printf` call, in order. -/
def processDNSRecords (range : MapRange) (records : List DNSRecord) : List String :=
  let out := ["DNS Records:\n", "------------\n"]
  let out := records.foldl (fun out record =>
    let proxiedStatus :=
      if (match record.Proxied with
          | some b => b
          | none => false) then "true" else "false"
    out ++ [record.Type_ ++ " | " ++ record.Name ++ " | " ++ record.Content ++ " | TTL: "
      ++ formatInt record.TTL ++ " | Proxied: " ++ proxiedStatus ++ "\n"]) out
  let out := out ++ ["\nSummary:\n", "--------\n"]
  let typeCounts := records.foldl (fun m record => mapIncrement m record.Type_) []
  let out := (range.order typeCounts).foldl (fun out entry =>
    out ++ [entry.1 ++ ": " ++ formatInt (entry.2 : Int) ++ "\n"]) out
  out ++ ["Total records: " ++ formatInt (records.length : Int) ++ "\n"]

/-! ## Credentials -/

/-- Go struct `Credentials` (JSON names `api_token` and `zone_id`). -/
structure Credentials where
  APIToken : String
  ZoneID : String
deriving DecidableEq

/-- A member value of a JSON object, as `json.Unmarshal` treats it for a target field of
Go type `string`: `null` leaves the field alone, a JSON string is stored, and anything
else (number, boolean, array, object) is reported with the given `UnmarshalTypeError`. -/
inductive JSONValue where
  | null
  | string (s : String)
  | other (typeError : GoError)

/-- What `ioutil.ReadFile` found in the credential file, as `json.Unmarshal` treats it for
a target of type `Credentials`: not a JSON text (with the decoder's `SyntaxError`), the
text `null`, an object with its members in order, or another JSON value (with the
decoder's `UnmarshalTypeError`). -/
inductive FileContent where
  | invalid (syntaxError : GoError)
  | null
  | object (members : List (String × JSONValue))
  | other (typeError : GoError)

/-- The case folding `encoding/json` applies to member names, on the characters that can
fold to an ASCII letter: the lower-case ASCII letters, the Kelvin sign and the long s.
Every other character is left as it is, which decides the comparison with an ASCII field
name the way Go does. -/
def foldChar (c : Char) : Char :=
  if 'a' ≤ c ∧ c ≤ 'z' then Char.ofNat (c.toNat - 32)
  else if c = Char.ofNat 0x212A then 'K'
  else if c = Char.ofNat 0x017F then 'S'
  else c

/-- Whether the member name `key` selects the struct field with JSON name `field`: an
exact match or, failing that, a match under case folding. -/
def keyMatches (key field : String) : Bool :=
  key = field || key.data.map foldChar = field.data.map foldChar

/-- The object case of `json.Unmarshal` into `Credentials`: the members are decoded in
order, a later member overwrites an earlier one, unknown names are skipped, and the first
type error is kept while decoding goes on. -/
def decodeMembers : List (String × JSONValue) → Credentials → Option GoError →
    Credentials × Option GoError
  | [], creds, err => (creds, err)
  | (key, v) :: rest, creds, err =>
    if keyMatches key "api_token" then
      match v with
      | JSONValue.null => decodeMembers rest creds err
      | JSONValue.string t => decodeMembers rest ⟨t, creds.ZoneID⟩ err
      | JSONValue.other e => decodeMembers rest creds (if err.isSome then err else some e)
    else if keyMatches key "zone_id" then
      match v with
      | JSONValue.null => decodeMembers rest creds err
      | JSONValue.string z => decodeMembers rest ⟨creds.APIToken, z⟩ err
      | JSONValue.other e => decodeMembers rest creds (if err.isSome then err else some e)
    else decodeMembers rest creds err

/-- Go `json.Unmarshal(file, &creds)`: the struct after the call and the error. -/
def jsonUnmarshal (file : FileContent) (creds : Credentials) : Credentials × Option GoError :=
  match file with
  | FileContent.invalid e => (creds, some e)
  | FileContent.null => (creds, none)
  | FileContent.object members => decodeMembers members creds none
  | FileContent.other e => (creds, some e)

/-- The surroundings of one process run: the file system (`ioutil.ReadFile`), the
client constructor (`cloudflare.NewWithAPIToken`) and the map iteration order. -/
structure Env (σ : Type) where
  readFile : String → Except GoError FileContent
  newWithAPIToken : String → Except GoError (API σ)
  mapRange : MapRange

/-- Go `loadCredentials`. -/
def loadCredentials {σ : Type} (env : Env σ) (filename : String) :
    Credentials × Option GoError :=
  let creds : Credentials := ⟨"", ""⟩
  match env.readFile filename with
  | Except.error err => (creds, some err)
  | Except.ok file => jsonUnmarshal file creds

/-! ## The command line -/

/-- The six lines `main` prints when no command word is given. -/
def usage : List String :=
  ["Usage: go run main.go \x7badd|get_all|get <type>\x7d\n",
   "Examples:\n",
   "  go run main.go add A example.com 192.0.2.1 3600\n",
   "  go run main.go add TXT example.com '1:content part 1' '2:content part 2' '3:content part 3' 3600\n",
   "  go run main.go get_all\n",
   "  go run main.go get A\n"]

/-- Go `log.Fatal(msg)`: the message on standard error, then `os.Exit(1)`. -/
def logFatal {σ : Type} (s : σ) (trace : List Event) (msg : String) : Run σ Nat :=
  ⟨s, trace ++ [Event.stderr (msg ++ "\n")], 1⟩

/-- Go `main`, on `os.Args = args`, from the remote state `s`. The value is the exit
status of the process. -/
def main {σ : Type} (env : Env σ) (args : List String) (s : σ) : Run σ Nat :=
  if args.length < 2 then
    ⟨s, usage.map Event.stdout, 1⟩
  else
    match loadCredentials env "cloudflare_credentials.json" with
    | (_, some err) => logFatal s [] ("Error loading credentials: " ++ err)
    | (creds, none) =>
      match env.newWithAPIToken creds.APIToken with
      | Except.error err => logFatal s [] ("Error creating Cloudflare API client: " ++ err)
      | Except.ok api =>
        let command := args.getD 1 ""
        if command = "add" then
          if args.length < 6 then
            logFatal s [] "Not enough arguments for add command"
          else
            let recordType := args.getD 2 ""
            let name := args.getD 3 ""
            let ttl : Int :=
              match fmtSscanInt (args.getD (args.length - 1) "") with
              | some v => v
              | none => 0
            let r :=
              if recordType = "TXT" ∧ stringsContains (args.getD 4 "") ":" = true then
                let contents := (args.take (args.length - 1)).drop 4
                addSegmentedTXTRecord api creds.ZoneID name contents ttl s
              else
                let content := args.getD 4 ""
                addDNSRecord api creds.ZoneID recordType name content ttl s
            match r.value with
            | some err => logFatal r.state r.trace ("Error adding DNS record: " ++ err)
            | none => ⟨r.state, r.trace ++ [Event.stdout "DNS record added successfully\n"], 0⟩
        else if command = "get_all" then
          let r := getDNSRecords api creds.ZoneID s
          match r.value.2 with
          | some err => logFatal r.state r.trace ("Error getting DNS records: " ++ err)
          | none =>
            ⟨r.state, r.trace ++ (processDNSRecords env.mapRange r.value.1).map Event.stdout, 0⟩
        else if command = "get" then
          if args.length < 3 then
            logFatal s [] "Record type is required for get command"
          else
            let recordType := args.getD 2 ""
            let r := getDNSRecordsByType api creds.ZoneID recordType s
            match r.value.2 with
            | some err => logFatal r.state r.trace ("Error getting DNS records: " ++ err)
            | none =>
              ⟨r.state, r.trace ++ (processDNSRecords env.mapRange r.value.1).map Event.stdout, 0⟩
        else
          logFatal s [] ("Unknown command: " ++ command)

/-! ## Definitions used in the statements and the closed examples -/

/-- The remote state after a sequence of create calls, whatever their results. -/
def stateAfterCreates {σ : Type} (api : API σ) (zoneID : String)
    (calls : List CreateDNSRecordParams) (s : σ) : σ :=
  calls.foldl (fun s p => (api.createDNSRecord s zoneID p).1) s

/-- The effects of one successful iteration of `addSegmentedTXTRecord`. -/
def segmentEffects (zoneID name : String) (ttl : Int) (content : String) : List Event :=
  [Event.createDNSRecord zoneID ⟨"TXT", name, content, ttl⟩, Event.sleep timeSecond]

/-- Go `m[k]` on a `map[string]int` kept as an association list: zero for a missing key. -/
def mapGet : List (String × Nat) → String → Nat
  | [], _ => 0
  | (k', v) :: rest, k => if k' = k then v else mapGet rest k

/-- The per-type lines of an output of `processDNSRecords` for `n` records: what lies
between the four lines before them (two headers, `n` record lines, two summary headers)
and the final total line. -/
def summaryTypeLines (out : List String) (n : Nat) : List String :=
  (out.drop (4 + n)).dropLast

/-- A map iteration that visits the entries in insertion order. -/
def insertionOrder : MapRange := ⟨id, fun _ => List.Perm.refl _⟩

/-- A map iteration that visits the entries in reverse insertion order. -/
def reverseOrder : MapRange := ⟨List.reverse, fun m => List.reverse_perm m⟩

/-- Two records, a TXT record listed before an A record. -/
def txtThenA : List DNSRecord :=
  [⟨"TXT", "t.example.com", "v=spf1", 300, none⟩, ⟨"A", "a.example.com", "192.0.2.1", 300, none⟩]

/-- Whether no number can start in `arg`: after the leading white space and one optional
sign, the argument is at its end or goes on with a character that is neither a decimal
digit nor `_`. -/
def noNumberAhead (arg : String) : Bool :=
  let rest := arg.data.dropWhile isSpace
  let rest := if rest.head? = some '+' ∨ rest.head? = some '-' then rest.drop 1 else rest
  match rest with
  | [] => true
  | c :: _ => decide (c ∉ decimalDigits ∧ c ≠ '_')

/-- The number a list of decimal digits denotes. -/
def decimalValue (ds : List Char) : Nat :=
  ds.foldl (fun n c => n * 10 + (c.toNat - '0'.toNat)) 0

/-- Whether an effect is a call to the gateway (a create or a list call). -/
def Event.isCall : Event → Bool
  | Event.createDNSRecord _ _ => true
  | Event.listDNSRecords _ _ => true
  | _ => false

/-- The gateway calls of a trace, in order. -/
def gatewayCalls (trace : List Event) : List Event :=
  trace.filter Event.isCall

/-- The records of the zone of the closed examples. -/
def exampleZone : List DNSRecord :=
  [⟨"A", "example.com", "192.0.2.1", 3600, some true⟩,
   ⟨"TXT", "example.com", "1:content part 1", 300, none⟩,
   ⟨"A", "www.example.com", "192.0.2.2", 3600, some false⟩]

/-- A gateway for the closed examples. Its state counts the requests sent so far. Like
the Cloudflare client, both calls refuse an empty zone identifier without sending a
request. A create call fails, with the text `rate limited`, when `failAt` requests were
sent before it, and succeeds otherwise; a list call returns the records of `exampleZone`,
those of the given type when a type is given. -/
def exampleAPI (failAt : Option Nat) : API Nat :=
  ⟨fun s zoneID _ =>
     if zoneID = "" then (s, some "required missing zone ID")
     else (s + 1, if failAt = some s then some "rate limited" else none),
   fun s zoneID p =>
     if zoneID = "" then (s, [], some "required missing zone ID")
     else (s + 1,
       exampleZone.filter (fun r => decide (p.Type_ = "") || decide (r.Type_ = p.Type_)),
       none)⟩

/-- A gateway whose create call always succeeds and whose list call finds no record. -/
def acceptingAPI : API Nat :=
  ⟨fun s _ _ => (s + 1, none), fun s _ _ => (s + 1, [], none)⟩

/-- The surroundings of the closed examples: the credential file holds `file`, the client
constructor refuses the empty token as `cloudflare.NewWithAPIToken` does, and the gateway
is `exampleAPI failAt`. -/
def exampleEnv (file : FileContent) (failAt : Option Nat) (range : MapRange) : Env Nat :=
  ⟨fun _ => Except.ok file,
   fun token =>
     if token = "" then Except.error "invalid credentials: API Token must not be empty"
     else Except.ok (exampleAPI failAt),
   range⟩

/-- A credential file with both fields. -/
def fullCredentials : FileContent :=
  FileContent.object
    [("api_token", JSONValue.string "token"), ("zone_id", JSONValue.string "zone")]

/-- A credential file whose zone identifier is the empty string. -/
def emptyZoneCredentials : FileContent :=
  FileContent.object
    [("api_token", JSONValue.string "token"), ("zone_id", JSONValue.string "")]

/-- A credential file without a zone identifier. -/
def missingZoneCredentials : FileContent :=
  FileContent.object [("api_token", JSONValue.string "token")]

/-! # Theorems -/

/-! ## Strings -/

theorem indexChars_colon_of_not_mem (s : List Char) (h : ':' ∉ s) :
    indexChars [':'] s = none := by
  induction s with
  | nil => simp [indexChars]
  | cons c cs ih =>
    simp only [List.mem_cons, not_or] at h
    have hc : c ≠ ':' := fun e => h.1 e.symm
    simp [indexChars, List.isPrefixOf, hc, Ne.symm hc, ih h.2]

theorem indexChars_colon_of_mem (s : List Char) (h : ':' ∈ s) :
    ∃ m, indexChars [':'] s = some m ∧ ':' ∉ s.take m ∧
      s.take m ++ ':' :: s.drop (m + 1) = s := by
  induction s with
  | nil => simp at h
  | cons c cs ih =>
    by_cases hc : c = ':'
    · refine ⟨0, ?_, ?_, ?_⟩ <;> simp [indexChars, List.isPrefixOf, hc]
    · have h' : ':' ∈ cs := by
        rcases List.mem_cons.1 h with e | e
        · exact absurd e.symm hc
        · exact e
      obtain ⟨m, hm, hnot, hsplit⟩ := ih h'
      refine ⟨m + 1, ?_, ?_, ?_⟩
      · simp [indexChars, List.isPrefixOf, hc, Ne.symm hc, hm]
      · simp [List.take_succ_cons, hnot, Ne.symm hc]
      · simp [List.take_succ_cons, hsplit]

theorem stringsSplitN_colon_of_not_mem (c : String) (h : ':' ∉ c.data) :
    stringsSplitN c ":" 2 = [c] := by
  have hsep : (":" : String) ≠ "" := by decide
  have hdata : (":" : String).data = [':'] := rfl
  unfold stringsSplitN
  simp only [hsep, if_false, hdata]
  by_cases hl : c.data.length = 0
  · simp [hl, genSplitLoop]
  · have h2 : ¬ ((c.length : Int) + 1 < 2) := by
      have : c.length = c.data.length := rfl
      omega
    simp [h2, genSplitLoop, indexChars_colon_of_not_mem c.data h]

theorem stringsSplitN_colon_of_mem (c : String) (h : ':' ∈ c.data) :
    ∃ a b : String, stringsSplitN c ":" 2 = [a, b] ∧ ':' ∉ a.data ∧ a ++ ":" ++ b = c := by
  have hsep : (":" : String) ≠ "" := by decide
  have hdata : (":" : String).data = [':'] := rfl
  obtain ⟨m, hm, hnot, hsplit⟩ := indexChars_colon_of_mem c.data h
  have hl : c.data.length ≠ 0 := by
    intro h0
    rw [List.length_eq_zero] at h0
    rw [h0] at h
    simp at h
  have h2 : ¬ ((c.length : Int) + 1 < 2) := by
    have : c.length = c.data.length := rfl
    omega
  refine ⟨String.mk (c.data.take m), String.mk (c.data.drop (m + 1)), ?_, hnot, ?_⟩
  · unfold stringsSplitN
    simp [hsep, hdata, h2, genSplitLoop, hm]
  · apply String.ext
    simp [String.data_append, hdata, hsplit]

theorem stringsContains_colon (c : String) :
    stringsContains c ":" = true ↔ ':' ∈ c.data := by
  have hdata : (":" : String).data = [':'] := rfl
  unfold stringsContains stringsIndex
  rw [hdata]
  by_cases h : ':' ∈ c.data
  · obtain ⟨m, hm, _, _⟩ := indexChars_colon_of_mem c.data h
    simp [hm, h]
  · simp [indexChars_colon_of_not_mem c.data h, h]

/-! ## The segmented TXT writer (C1, C2, C3) -/

theorem addSegmentedTXTRecord_cons_of_mem {σ : Type} (api : API σ) (zoneID name : String)
    (c : String) (rest : List String) (ttl : Int) (s : σ) (h : ':' ∈ c.data) :
    addSegmentedTXTRecord api zoneID name (c :: rest) ttl s =
      match (api.createDNSRecord s zoneID ⟨"TXT", name, c, ttl⟩).2 with
      | some err =>
        ⟨(api.createDNSRecord s zoneID ⟨"TXT", name, c, ttl⟩).1,
          [Event.createDNSRecord zoneID ⟨"TXT", name, c, ttl⟩], some err⟩
      | none =>
        ⟨(addSegmentedTXTRecord api zoneID name rest ttl
            (api.createDNSRecord s zoneID ⟨"TXT", name, c, ttl⟩).1).state,
          segmentEffects zoneID name ttl c ++ (addSegmentedTXTRecord api zoneID name rest ttl
            (api.createDNSRecord s zoneID ⟨"TXT", name, c, ttl⟩).1).trace,
          (addSegmentedTXTRecord api zoneID name rest ttl
            (api.createDNSRecord s zoneID ⟨"TXT", name, c, ttl⟩).1).value⟩ := by
  obtain ⟨a, b, hsplit, _, hjoin⟩ := stringsSplitN_colon_of_mem c h
  simp only [addSegmentedTXTRecord, hsplit, addDNSRecord, segmentEffects]
  simp only [List.length_cons, List.length_nil, ne_eq, not_true_eq_false, if_false,
    List.getD_cons_zero, List.getD_cons_succ, hjoin]
  cases (api.createDNSRecord s zoneID ⟨"TXT", name, c, ttl⟩).2 <;> simp

theorem addSegmentedTXTRecord_cons_of_not_mem {σ : Type} (api : API σ) (zoneID name : String)
    (c : String) (rest : List String) (ttl : Int) (s : σ) (h : ':' ∉ c.data) :
    addSegmentedTXTRecord api zoneID name (c :: rest) ttl s =
      ⟨s, [], some ("invalid content format: " ++ c)⟩ := by
  simp [addSegmentedTXTRecord, stringsSplitN_colon_of_not_mem c h]

theorem addSegmentedTXTRecord_trace_mem {σ : Type} (api : API σ) (zoneID name : String)
    (contents : List String) (ttl : Int) (s : σ) (e : Event)
    (he : e ∈ (addSegmentedTXTRecord api zoneID name contents ttl s).trace) :
    e = Event.sleep timeSecond ∨
      ∃ c ∈ contents, e = Event.createDNSRecord zoneID ⟨"TXT", name, c, ttl⟩ := by
  induction contents generalizing s with
  | nil => simp [addSegmentedTXTRecord] at he
  | cons c rest ih =>
    by_cases hc : ':' ∈ c.data
    · rw [addSegmentedTXTRecord_cons_of_mem api zoneID name c rest ttl s hc] at he
      rcases hv : (api.createDNSRecord s zoneID ⟨"TXT", name, c, ttl⟩).2 with _ | err
      · rw [hv] at he
        simp only [segmentEffects, List.cons_append, List.nil_append, List.mem_cons] at he
        rcases he with rfl | rfl | he
        · exact Or.inr ⟨c, List.mem_cons_self _ _, rfl⟩
        · exact Or.inl rfl
        · rcases ih _ he with h | ⟨c', hc', h⟩
          · exact Or.inl h
          · exact Or.inr ⟨c', List.mem_cons_of_mem _ hc', h⟩
      · rw [hv] at he
        simp only [List.mem_singleton] at he
        exact Or.inr ⟨c, List.mem_cons_self _ _, he⟩
    · rw [addSegmentedTXTRecord_cons_of_not_mem api zoneID name c rest ttl s hc] at he
      simp at he

/-- C1. With a gateway whose create call always succeeds and content strings that all
contain a colon, `addSegmentedTXTRecord` returns no error, and its effects are, for each
string in input order, one create call for a TXT record with the caller's name and ttl and
that string unchanged as content, followed by a pause of one second: for `n` strings, `n`
create calls and `n` pauses (`2 * n` effects), the last effect being a pause. Each string
splits at its first colon into two parts that rejoin to it. -/
theorem addSegmentedTXTRecord_creates_every_segment {σ : Type} (api : API σ)
    (zoneID name : String) (contents : List String) (ttl : Int) (s : σ)
    (hwf : ∀ c ∈ contents, ':' ∈ c.data)
    (hok : ∀ s' z p, (api.createDNSRecord s' z p).2 = none) :
    (addSegmentedTXTRecord api zoneID name contents ttl s).value = none ∧
    (addSegmentedTXTRecord api zoneID name contents ttl s).trace =
      contents.flatMap (fun c =>
        [Event.createDNSRecord zoneID ⟨"TXT", name, c, ttl⟩, Event.sleep timeSecond]) ∧
    (addSegmentedTXTRecord api zoneID name contents ttl s).trace.length
      = 2 * contents.length ∧
    (contents ≠ [] →
      (addSegmentedTXTRecord api zoneID name contents ttl s).trace.getLast? =
        some (Event.sleep timeSecond)) ∧
    (∀ c ∈ contents, ∃ a b : String,
      stringsSplitN c ":" 2 = [a, b] ∧ ':' ∉ a.data ∧ a ++ ":" ++ b = c) := by
  have key : ∀ (contents : List String) (s : σ), (∀ c ∈ contents, ':' ∈ c.data) →
      (addSegmentedTXTRecord api zoneID name contents ttl s).value = none ∧
      (addSegmentedTXTRecord api zoneID name contents ttl s).trace =
        contents.flatMap (fun c =>
          [Event.createDNSRecord zoneID ⟨"TXT", name, c, ttl⟩, Event.sleep timeSecond]) := by
    intro contents
    induction contents with
    | nil => intro s _; simp [addSegmentedTXTRecord]
    | cons c rest ih =>
      intro s hwf
      have hc : ':' ∈ c.data := hwf c (List.mem_cons_self _ _)
      have hrest := ih (api.createDNSRecord s zoneID ⟨"TXT", name, c, ttl⟩).1
        (fun x hx => hwf x (List.mem_cons_of_mem _ hx))
      rw [addSegmentedTXTRecord_cons_of_mem api zoneID name c rest ttl s hc, hok]
      simp [hrest.1, hrest.2, segmentEffects]
  obtain ⟨hval, htrace⟩ := key contents s hwf
  refine ⟨hval, htrace, ?_, ?_, fun c hc => stringsSplitN_colon_of_mem c (hwf c hc)⟩
  · rw [htrace]
    clear htrace hval hwf key
    induction contents with
    | nil => rfl
    | cons c rest ih => simp [List.flatMap_cons, ih]; omega
  · intro hne
    rw [htrace]
    obtain ⟨front, c, rfl⟩ : ∃ front c, contents = front ++ [c] :=
      ⟨contents.dropLast, contents.getLast hne, (List.dropLast_append_getLast hne).symm⟩
    simp [List.flatMap_append]

/-- C1 (witness): the three segments `1:a`, `2:b`, `3:c`. -/
theorem addSegmentedTXTRecord_creates_every_segment_witness :
    (addSegmentedTXTRecord acceptingAPI "zone" "example.com" ["1:a", "2:b", "3:c"]
      3600 0).value = none ∧
    (addSegmentedTXTRecord acceptingAPI "zone" "example.com" ["1:a", "2:b", "3:c"]
      3600 0).trace =
      [Event.createDNSRecord "zone" ⟨"TXT", "example.com", "1:a", 3600⟩,
       Event.sleep timeSecond,
       Event.createDNSRecord "zone" ⟨"TXT", "example.com", "2:b", 3600⟩,
       Event.sleep timeSecond,
       Event.createDNSRecord "zone" ⟨"TXT", "example.com", "3:c", 3600⟩,
       Event.sleep timeSecond] := by
  have h := addSegmentedTXTRecord_creates_every_segment acceptingAPI "zone"
    "example.com" ["1:a", "2:b", "3:c"] 3600 0 (by decide) (fun _ _ _ => rfl)
  exact ⟨h.1, h.2.1⟩

/-- C2. With a gateway whose create call always succeeds, if the string at index `k` is
the first without a colon, `addSegmentedTXTRecord` returns the format error naming that
string, and its effects are exactly the create call and pause of each of the `k` strings
before it, in order: nothing is sent for the string at index `k` or for a later one, and
no call undoes the `k` records created. -/
theorem addSegmentedTXTRecord_format_error {σ : Type} (api : API σ)
    (zoneID name : String) (contents : List String) (k : Nat) (ttl : Int) (s : σ)
    (hk : k < contents.length)
    (hbefore : ∀ i, i < k → ':' ∈ (contents.getD i "").data)
    (hbad : ':' ∉ (contents.getD k "").data)
    (hok : ∀ s' z p, (api.createDNSRecord s' z p).2 = none) :
    (addSegmentedTXTRecord api zoneID name contents ttl s).value =
      some ("invalid content format: " ++ contents.getD k "") ∧
    (addSegmentedTXTRecord api zoneID name contents ttl s).trace =
      (contents.take k).flatMap (fun c =>
        [Event.createDNSRecord zoneID ⟨"TXT", name, c, ttl⟩, Event.sleep timeSecond]) := by
  induction contents generalizing k s with
  | nil => simp at hk
  | cons c rest ih =>
    cases k with
    | zero =>
      simp only [List.getD_cons_zero] at hbad
      rw [addSegmentedTXTRecord_cons_of_not_mem api zoneID name c rest ttl s hbad]
      simp
    | succ k =>
      have hc : ':' ∈ c.data := by simpa using hbefore 0 (Nat.succ_pos k)
      have hrest := ih k (api.createDNSRecord s zoneID ⟨"TXT", name, c, ttl⟩).1
        (by simpa using hk)
        (fun i hi => by simpa using hbefore (i + 1) (Nat.succ_lt_succ hi))
        (by simpa using hbad)
      rw [addSegmentedTXTRecord_cons_of_mem api zoneID name c rest ttl s hc, hok]
      simp [hrest.1, hrest.2, segmentEffects]

/-- C2 (witness): `nosep` at index 1 stops the writer after the first record. -/
theorem addSegmentedTXTRecord_format_error_witness :
    (addSegmentedTXTRecord acceptingAPI "zone" "example.com" ["1:a", "nosep", "3:c"]
      3600 0).value = some "invalid content format: nosep" ∧
    (addSegmentedTXTRecord acceptingAPI "zone" "example.com" ["1:a", "nosep", "3:c"]
      3600 0).trace =
      [Event.createDNSRecord "zone" ⟨"TXT", "example.com", "1:a", 3600⟩,
       Event.sleep timeSecond] :=
  addSegmentedTXTRecord_format_error acceptingAPI "zone" "example.com"
    ["1:a", "nosep", "3:c"] 1 3600 0 (by decide) (by decide) (by decide) (fun _ _ _ => rfl)

/-- C3. For content strings that all contain a colon and any gateway: if the create calls
for the strings before index `k` succeed and the one for the string at index `k` fails
with `err`, `addSegmentedTXTRecord` returns `err`, and its effects are the create call and
pause of each of the first `k` strings followed by the failed create call alone: no pause
after it and no create call for a later string. -/
theorem addSegmentedTXTRecord_api_error {σ : Type} (api : API σ)
    (zoneID name : String) (contents : List String) (k : Nat) (ttl : Int) (s : σ)
    (err : GoError)
    (hk : k < contents.length)
    (hwf : ∀ c ∈ contents, ':' ∈ c.data)
    (hsucc : ∀ i, i < k →
      (api.createDNSRecord
        (stateAfterCreates api zoneID
          ((contents.take i).map (fun c => ⟨"TXT", name, c, ttl⟩)) s)
        zoneID ⟨"TXT", name, contents.getD i "", ttl⟩).2 = none)
    (hfail :
      (api.createDNSRecord
        (stateAfterCreates api zoneID
          ((contents.take k).map (fun c => ⟨"TXT", name, c, ttl⟩)) s)
        zoneID ⟨"TXT", name, contents.getD k "", ttl⟩).2 = some err) :
    (addSegmentedTXTRecord api zoneID name contents ttl s).value = some err ∧
    (addSegmentedTXTRecord api zoneID name contents ttl s).trace =
      (contents.take k).flatMap (fun c =>
        [Event.createDNSRecord zoneID ⟨"TXT", name, c, ttl⟩, Event.sleep timeSecond])
      ++ [Event.createDNSRecord zoneID ⟨"TXT", name, contents.getD k "", ttl⟩] := by
  induction contents generalizing k s with
  | nil => simp at hk
  | cons c rest ih =>
    have hc : ':' ∈ c.data := hwf c (List.mem_cons_self _ _)
    rw [addSegmentedTXTRecord_cons_of_mem api zoneID name c rest ttl s hc]
    cases k with
    | zero =>
      simp only [List.take_zero, List.map_nil, stateAfterCreates, List.foldl_nil,
        List.getD_cons_zero] at hfail
      simp [hfail]
    | succ k =>
      have h0 : (api.createDNSRecord s zoneID ⟨"TXT", name, c, ttl⟩).2 = none := by
        simpa [stateAfterCreates] using hsucc 0 (Nat.succ_pos k)
      have hrest := ih k (api.createDNSRecord s zoneID ⟨"TXT", name, c, ttl⟩).1
        (by simpa using hk)
        (fun x hx => hwf x (List.mem_cons_of_mem _ hx))
        (fun i hi => by
          simpa [stateAfterCreates] using hsucc (i + 1) (Nat.succ_lt_succ hi))
        (by simpa [stateAfterCreates] using hfail)
      rw [h0]
      simp [hrest.1, hrest.2, segmentEffects]

/-- C3 (witness): the gateway refuses the second create call. -/
theorem addSegmentedTXTRecord_api_error_witness :
    (addSegmentedTXTRecord (exampleAPI (some 1)) "zone" "example.com"
      ["1:a", "2:b", "3:c"] 3600 0).value = some "rate limited" ∧
    (addSegmentedTXTRecord (exampleAPI (some 1)) "zone" "example.com"
      ["1:a", "2:b", "3:c"] 3600 0).trace =
      [Event.createDNSRecord "zone" ⟨"TXT", "example.com", "1:a", 3600⟩,
       Event.sleep timeSecond,
       Event.createDNSRecord "zone" ⟨"TXT", "example.com", "2:b", 3600⟩] :=
  addSegmentedTXTRecord_api_error (exampleAPI (some 1)) "zone" "example.com"
    ["1:a", "2:b", "3:c"] 1 3600 0 "rate limited" (by decide) (by decide) (by decide)
    (by decide)

/-! ## The report (C4, C5, C6) -/

theorem foldl_append_singleton {α β : Type} (f : α → β) (l : List α) (init : List β) :
    l.foldl (fun out x => out ++ [f x]) init = init ++ l.map f := by
  induction l generalizing init with
  | nil => simp
  | cons x xs ih => simp [ih]

theorem keys_mapIncrement (m : List (String × Nat)) (k : String) :
    (mapIncrement m k).map Prod.fst =
      if k ∈ m.map Prod.fst then m.map Prod.fst else m.map Prod.fst ++ [k] := by
  induction m with
  | nil => simp [mapIncrement]
  | cons e rest ih =>
    obtain ⟨k', v⟩ := e
    by_cases h : k' = k
    · simp [mapIncrement, h]
    · have h' : ¬ k = k' := fun e => h e.symm
      by_cases hm : k ∈ rest.map Prod.fst
      · simp only [mapIncrement, h, if_false, List.map_cons, ih, hm, if_true,
          List.mem_cons, or_true]
      · simp only [mapIncrement, h, if_false, List.map_cons, ih, hm, List.mem_cons, h',
          or_self, List.cons_append]

theorem mapGet_mapIncrement (m : List (String × Nat)) (k t : String) :
    mapGet (mapIncrement m k) t = if t = k then mapGet m k + 1 else mapGet m t := by
  induction m with
  | nil =>
    by_cases h : t = k
    · simp [mapIncrement, mapGet, h]
    · have h' : ¬ k = t := fun e => h e.symm
      simp [mapIncrement, mapGet, h, h']
  | cons e rest ih =>
    obtain ⟨k', v⟩ := e
    by_cases h : k' = k
    · subst h
      by_cases ht : t = k'
      · simp [mapIncrement, mapGet, ht]
      · have ht' : ¬ k' = t := fun e => ht e.symm
        simp [mapIncrement, mapGet, ht, ht']
    · by_cases ht : k' = t
      · have : ¬ t = k := fun e => h (ht.trans e)
        simp [mapIncrement, mapGet, h, ht, this]
      · simp [mapIncrement, mapGet, h, ht, ih]

theorem typeCounts_fold (ts : List String) (m : List (String × Nat))
    (hm : (m.map Prod.fst).Nodup) :
    ((ts.foldl mapIncrement m).map Prod.fst).Nodup ∧
    (∀ t, t ∈ (ts.foldl mapIncrement m).map Prod.fst ↔ t ∈ m.map Prod.fst ∨ t ∈ ts) ∧
    (∀ t, mapGet (ts.foldl mapIncrement m) t = mapGet m t + ts.count t) := by
  induction ts generalizing m with
  | nil => simp [hm]
  | cons k rest ih =>
    have hnodup : ((mapIncrement m k).map Prod.fst).Nodup := by
      rw [keys_mapIncrement]
      by_cases hk : k ∈ m.map Prod.fst
      · simpa [hk] using hm
      · rw [if_neg hk]
        exact List.Nodup.append hm (List.nodup_singleton k) (by simpa using hk)
    obtain ⟨h1, h2, h3⟩ := ih (mapIncrement m k) hnodup
    refine ⟨by simpa using h1, ?_, ?_⟩
    · intro t
      rw [List.foldl_cons, h2 t, keys_mapIncrement]
      by_cases hk : k ∈ m.map Prod.fst
      · rw [if_pos hk, List.mem_cons]
        constructor
        · rintro (h | h)
          · exact Or.inl h
          · exact Or.inr (Or.inr h)
        · rintro (h | h | h)
          · exact Or.inl h
          · exact Or.inl (h ▸ hk)
          · exact Or.inr h
      · rw [if_neg hk, List.mem_append, List.mem_singleton, List.mem_cons]
        tauto
    · intro t
      rw [List.foldl_cons, h3 t, mapGet_mapIncrement, List.count_cons]
      by_cases ht : t = k
      · subst ht; simp; omega
      · have ht' : ¬ k = t := fun e => ht e.symm
        simp [ht, ht']

theorem entries_eq_of_nodup_keys (m : List (String × Nat)) (hm : (m.map Prod.fst).Nodup) :
    m = (m.map Prod.fst).map (fun t => (t, mapGet m t)) := by
  induction m with
  | nil => rfl
  | cons e rest ih =>
    obtain ⟨k, v⟩ := e
    simp only [List.map_cons, List.nodup_cons] at hm
    have hrest := ih hm.2
    simp only [List.map_cons, mapGet, if_true, List.cons.injEq, true_and]
    conv_lhs => rw [hrest]
    apply List.map_congr_left
    intro t ht
    have : ¬ k = t := fun e => hm.1 (e ▸ ht)
    simp [this]

theorem typeCounts_perm (ts : List String) :
    List.Perm (ts.foldl mapIncrement []) (ts.dedup.map (fun t => (t, ts.count t))) := by
  obtain ⟨h1, h2, h3⟩ := typeCounts_fold ts [] (by simp)
  have hkeys : List.Perm ((ts.foldl mapIncrement []).map Prod.fst) ts.dedup := by
    rw [List.perm_ext_iff_of_nodup h1 (List.nodup_dedup ts)]
    intro t
    rw [h2 t, List.mem_dedup]
    simp
  have hentries := entries_eq_of_nodup_keys (ts.foldl mapIncrement []) h1
  have hfun : (fun t => (t, mapGet (ts.foldl mapIncrement []) t))
      = (fun t => (t, ts.count t)) := by
    funext t
    rw [h3 t]
    simp [mapGet]
  rw [hfun] at hentries
  rw [hentries]
  exact hkeys.map _

theorem count_types (records : List DNSRecord) (t : String) :
    (records.map (fun r => r.Type_)).count t
      = (records.filter (fun r => decide (r.Type_ = t))).length := by
  induction records with
  | nil => rfl
  | cons r rest ih =>
    by_cases h : r.Type_ = t
    · simp [List.count_cons, List.filter_cons, h, ih]
    · simp [List.count_cons, List.filter_cons, h, ih]

theorem processDNSRecords_eq (range : MapRange) (records : List DNSRecord) :
    processDNSRecords range records =
      ["DNS Records:\n", "------------\n"]
      ++ records.map (fun r => r.Type_ ++ " | " ++ r.Name ++ " | " ++ r.Content ++ " | TTL: "
          ++ formatInt r.TTL ++ " | Proxied: "
          ++ (if r.Proxied = some true then "true" else "false") ++ "\n")
      ++ ["\nSummary:\n", "--------\n"]
      ++ (range.order ((records.map (fun r => r.Type_)).foldl mapIncrement [])).map
          (fun e => e.1 ++ ": " ++ formatInt (e.2 : Int) ++ "\n")
      ++ ["Total records: " ++ formatInt (records.length : Int) ++ "\n"] := by
  unfold processDNSRecords
  simp only [foldl_append_singleton, List.foldl_map]
  congr 4
  apply List.map_congr_left
  intro r _
  rcases r.Proxied with _ | b
  · simp
  · cases b <;> simp

theorem summaryTypeLines_eq (range : MapRange) (records : List DNSRecord) :
    summaryTypeLines (processDNSRecords range records) records.length =
      (range.order ((records.map (fun r => r.Type_)).foldl mapIncrement [])).map
        (fun e => e.1 ++ ": " ++ formatInt (e.2 : Int) ++ "\n") := by
  rw [processDNSRecords_eq, summaryTypeLines]
  have hlen : records.length = (records.map (fun r => r.Type_ ++ " | " ++ r.Name ++ " | "
    ++ r.Content ++ " | TTL: " ++ formatInt r.TTL ++ " | Proxied: "
    ++ (if r.Proxied = some true then "true" else "false") ++ "\n")).length := by simp
  generalize records.map (fun r => r.Type_ ++ " | " ++ r.Name ++ " | " ++ r.Content
    ++ " | TTL: " ++ formatInt r.TTL ++ " | Proxied: "
    ++ (if r.Proxied = some true then "true" else "false") ++ "\n") = lines at hlen ⊢
  rw [hlen]
  simp only [List.append_assoc, List.cons_append, List.nil_append]
  rw [show 4 + lines.length = (lines.length + 2) + 1 + 1 by omega]
  simp only [List.drop_succ_cons]
  rw [List.drop_append]
  simp

theorem drop_listing (range : MapRange) (records : List DNSRecord) :
    (processDNSRecords range records).drop (2 + records.length) =
      ["\nSummary:\n", "--------\n"]
      ++ (range.order ((records.map (fun r => r.Type_)).foldl mapIncrement [])).map
          (fun e => e.1 ++ ": " ++ formatInt (e.2 : Int) ++ "\n")
      ++ ["Total records: " ++ formatInt (records.length : Int) ++ "\n"] := by
  rw [processDNSRecords_eq]
  have hlen : records.length = (records.map (fun r => r.Type_ ++ " | " ++ r.Name ++ " | "
    ++ r.Content ++ " | TTL: " ++ formatInt r.TTL ++ " | Proxied: "
    ++ (if r.Proxied = some true then "true" else "false") ++ "\n")).length := by simp
  generalize records.map (fun r => r.Type_ ++ " | " ++ r.Name ++ " | " ++ r.Content
    ++ " | TTL: " ++ formatInt r.TTL ++ " | Proxied: "
    ++ (if r.Proxied = some true then "true" else "false") ++ "\n") = lines at hlen ⊢
  rw [hlen]
  simp only [List.append_assoc, List.cons_append, List.nil_append]
  rw [show 2 + lines.length = lines.length + 1 + 1 by omega]
  simp only [List.drop_succ_cons]
  simp

theorem typeLines_perm (range : MapRange) (records : List DNSRecord) :
    List.Perm (summaryTypeLines (processDNSRecords range records) records.length)
      ((records.map (fun r => r.Type_)).dedup.map (fun t =>
        t ++ ": "
          ++ formatInt ((records.filter (fun r => decide (r.Type_ = t))).length : Int)
          ++ "\n")) := by
  rw [summaryTypeLines_eq]
  have h1 := ((range.perm ((records.map (fun r => r.Type_)).foldl mapIncrement [])).trans
    (typeCounts_perm (records.map (fun r => r.Type_)))).map
      (fun e : String × Nat => e.1 ++ ": " ++ formatInt (e.2 : Int) ++ "\n")
  rw [List.map_map] at h1
  have hfun : ((fun e : String × Nat => e.1 ++ ": " ++ formatInt (e.2 : Int) ++ "\n") ∘
      fun t => (t, (records.map (fun r => r.Type_)).count t))
      = (fun t => t ++ ": "
          ++ formatInt ((records.filter (fun r => decide (r.Type_ = t))).length : Int)
          ++ "\n") := by
    funext t
    simp [count_types]
  rw [hfun] at h1
  exact h1

/-- C4. The listing part of the output of `processDNSRecords` (what follows the two
header lines and precedes the summary header) has one line per record, in input order;
the line of a record is `<type> | <name> | <content> | TTL: <ttl> | Proxied: <p>`, where
`<p>` is `true` when the `proxied` field is set and true, and `false` when it is unset or
set to false. -/
theorem processDNSRecords_listing (range : MapRange) (records : List DNSRecord) :
    (processDNSRecords range records).take 2 = ["DNS Records:\n", "------------\n"] ∧
    ((processDNSRecords range records).drop 2).take records.length =
      records.map (fun r => r.Type_ ++ " | " ++ r.Name ++ " | " ++ r.Content ++ " | TTL: "
        ++ formatInt r.TTL ++ " | Proxied: "
        ++ (match r.Proxied with
            | some true => "true"
            | some false => "false"
            | none => "false") ++ "\n") ∧
    (processDNSRecords range records).getD (2 + records.length) "" = "\nSummary:\n" := by
  rw [processDNSRecords_eq]
  have hfun : (fun r : DNSRecord => r.Type_ ++ " | " ++ r.Name ++ " | " ++ r.Content
        ++ " | TTL: " ++ formatInt r.TTL ++ " | Proxied: "
        ++ (match r.Proxied with
            | some true => "true"
            | some false => "false"
            | none => "false") ++ "\n")
      = (fun r => r.Type_ ++ " | " ++ r.Name ++ " | " ++ r.Content ++ " | TTL: "
          ++ formatInt r.TTL ++ " | Proxied: "
          ++ (if r.Proxied = some true then "true" else "false") ++ "\n") := by
    funext r
    rcases r.Proxied with _ | b
    · simp
    · cases b <;> simp
  rw [hfun]
  have hlen : records.length = (records.map (fun r => r.Type_ ++ " | " ++ r.Name ++ " | "
    ++ r.Content ++ " | TTL: " ++ formatInt r.TTL ++ " | Proxied: "
    ++ (if r.Proxied = some true then "true" else "false") ++ "\n")).length := by simp
  generalize records.map (fun r => r.Type_ ++ " | " ++ r.Name ++ " | " ++ r.Content
    ++ " | TTL: " ++ formatInt r.TTL ++ " | Proxied: "
    ++ (if r.Proxied = some true then "true" else "false") ++ "\n") = lines at hlen ⊢
  rw [hlen]
  refine ⟨by simp, ?_, ?_⟩
  · simp only [List.append_assoc, List.cons_append, List.nil_append, List.drop_succ_cons,
      List.drop_zero]
    exact List.take_left' rfl
  · simp only [List.append_assoc, List.cons_append, List.nil_append]
    rw [Nat.add_comm, List.getD_cons_succ, List.getD_cons_succ,
      List.getD_append_right _ _ _ _ (Nat.le_refl _)]
    simp

/-- C5. The summary part of the output of `processDNSRecords` (what follows the record
lines) is the two summary headers, then the per-type lines, then the final line
`Total records: <n>` with `n` the number of records. The per-type lines are, up to their
order, one line `<type>: <count>` for each distinct type of the list, `<count>` being the
number of records of that type; these counts sum to `n`; for the empty list the output is
the four header lines and `Total records: 0`. -/
theorem processDNSRecords_summary_counts (range : MapRange) (records : List DNSRecord) :
    (processDNSRecords range records).drop (2 + records.length) =
      ["\nSummary:\n", "--------\n"]
      ++ summaryTypeLines (processDNSRecords range records) records.length
      ++ ["Total records: " ++ formatInt (records.length : Int) ++ "\n"] ∧
    List.Perm (summaryTypeLines (processDNSRecords range records) records.length)
      ((records.map (fun r => r.Type_)).dedup.map (fun t =>
        t ++ ": "
          ++ formatInt ((records.filter (fun r => decide (r.Type_ = t))).length : Int)
          ++ "\n")) ∧
    ((records.map (fun r => r.Type_)).dedup.map (fun t =>
        (records.filter (fun r => decide (r.Type_ = t))).length)).sum = records.length ∧
    processDNSRecords range [] =
      ["DNS Records:\n", "------------\n", "\nSummary:\n", "--------\n",
        "Total records: 0\n"] := by
  refine ⟨?_, typeLines_perm range records, ?_, ?_⟩
  · rw [summaryTypeLines_eq, drop_listing]
  · have h := List.sum_map_count_dedup_eq_length (records.map (fun r => r.Type_))
    rw [List.length_map] at h
    rw [← h]
    congr 1
    apply List.map_congr_left
    intro t _
    exact (count_types records t).symm
  · rw [processDNSRecords_eq]
    have h := range.perm []
    rw [List.perm_nil] at h
    simp only [List.map_nil, List.foldl_nil, h, List.length_nil]
    decide

/-- C6 (counterexample). For a TXT record followed by an A record, a run whose map
iteration follows insertion order prints `TXT: 1` before `A: 1`, which is not ascending
(`A` sorts before `TXT`), and a run with the reverse iteration prints the two lines in the
other order: the order is neither ascending nor the same from run to run. -/
theorem processDNSRecords_type_lines_unsorted :
    summaryTypeLines (processDNSRecords insertionOrder txtThenA) txtThenA.length
      = ["TXT: 1\n", "A: 1\n"] ∧
    "A" < "TXT" ∧
    summaryTypeLines (processDNSRecords reverseOrder txtThenA) txtThenA.length
      = ["A: 1\n", "TXT: 1\n"] := by
  refine ⟨by decide, ?_, by decide⟩
  exact String.lt_iff_toList_lt.2 (by decide)

/-- C6 (as amended). The per-type summary lines of `processDNSRecords` are printed in the
order in which the map iteration of the run visits the type counts, which the code does
not sort; two runs on the same list print the same summary lines up to their order. -/
theorem processDNSRecords_type_lines_order (range₁ range₂ : MapRange)
    (records : List DNSRecord) :
    summaryTypeLines (processDNSRecords range₁ records) records.length =
      (range₁.order ((records.map (fun r => r.Type_)).foldl mapIncrement [])).map
        (fun e => e.1 ++ ": " ++ formatInt (e.2 : Int) ++ "\n") ∧
    List.Perm (summaryTypeLines (processDNSRecords range₁ records) records.length)
      (summaryTypeLines (processDNSRecords range₂ records) records.length) :=
  ⟨summaryTypeLines_eq range₁ records,
    (typeLines_perm range₁ records).trans (typeLines_perm range₂ records).symm⟩

/-! ## The command line (C7, C8, C9, C10) -/

theorem gatewayCalls_stdout (texts : List String) :
    gatewayCalls (texts.map Event.stdout) = [] := by
  induction texts with
  | nil => rfl
  | cons t rest ih => simp [gatewayCalls, Event.isCall]

theorem gatewayCalls_append (a b : List Event) :
    gatewayCalls (a ++ b) = gatewayCalls a ++ gatewayCalls b := by
  simp [gatewayCalls]

theorem main_usage_failure {σ : Type} (env : Env σ) (args : List String) (s : σ)
    (h : args.length < 2 ∨
      (args.getD 1 "" ≠ "add" ∧ args.getD 1 "" ≠ "get_all" ∧ args.getD 1 "" ≠ "get") ∨
      (args.getD 1 "" = "add" ∧ args.length < 6) ∨
      (args.getD 1 "" = "get" ∧ args.length < 3)) :
    (main env args s).value = 1 ∧ (main env args s).state = s ∧
      gatewayCalls (main env args s).trace = [] := by
  unfold main
  by_cases h2 : args.length < 2
  · rw [if_pos h2]
    exact ⟨rfl, rfl, gatewayCalls_stdout usage⟩
  · rw [if_neg h2]
    rcases hload : loadCredentials env "cloudflare_credentials.json" with ⟨creds, _ | err⟩
    · dsimp only
      rcases hnew : env.newWithAPIToken creds.APIToken with err | api
      · exact ⟨rfl, rfl, rfl⟩
      · dsimp only
        rcases h with h | ⟨ha, hb, hc⟩ | ⟨ha, hb⟩ | ⟨ha, hb⟩
        · exact absurd h h2
        · simp only [ha, hb, hc, if_false]
          exact ⟨rfl, rfl, rfl⟩
        · simp only [ha, hb, if_true]
          exact ⟨rfl, rfl, rfl⟩
        · have h1 : ¬ ("get" : String) = "add" := by decide
          have h3 : ¬ ("get" : String) = "get_all" := by decide
          simp only [ha, hb, h1, h3, if_true, if_false]
          exact ⟨rfl, rfl, rfl⟩
    · exact ⟨rfl, rfl, rfl⟩

theorem main_get_calls {σ : Type} (env : Env σ) (args : List String) (s : σ)
    (creds : Credentials) (api : API σ)
    (hget : args.getD 1 "" = "get") (hlen : 3 ≤ args.length)
    (hload : loadCredentials env "cloudflare_credentials.json" = (creds, none))
    (hnew : env.newWithAPIToken creds.APIToken = Except.ok api) :
    gatewayCalls (main env args s).trace =
      [Event.listDNSRecords creds.ZoneID ⟨args.getD 2 ""⟩] := by
  have h2 : ¬ args.length < 2 := by omega
  have h3 : ¬ args.length < 3 := by omega
  have h1 : ¬ ("get" : String) = "add" := by decide
  have h4 : ¬ ("get" : String) = "get_all" := by decide
  simp only [main, h2, if_false, hload, hnew, hget, h1, h4, h3, if_true]
  rcases (getDNSRecordsByType api creds.ZoneID (args.getD 2 "") s).value.2 with _ | err
  · simp only [getDNSRecordsByType, gatewayCalls_append, gatewayCalls_stdout]
    rfl
  · rfl

theorem main_get_trace {σ : Type} (env : Env σ) (args : List String) (s : σ)
    (hget : args.getD 1 "" = "get") (hlen : 3 ≤ args.length) (e : Event)
    (he : e ∈ (main env args s).trace) (hcall : e.isCall = true) :
    ∃ zoneID, e = Event.listDNSRecords zoneID ⟨args.getD 2 ""⟩ := by
  rcases hload : loadCredentials env "cloudflare_credentials.json" with ⟨creds, _ | err⟩
  · rcases hnew : env.newWithAPIToken creds.APIToken with err | api
    · have h2 : ¬ args.length < 2 := by omega
      simp only [main, h2, if_false, hload, hnew, logFatal, List.nil_append,
        List.mem_singleton] at he
      subst he
      simp [Event.isCall] at hcall
    · have hc := main_get_calls env args s creds api hget hlen hload hnew
      have hmem : e ∈ gatewayCalls (main env args s).trace :=
        List.mem_filter.2 ⟨he, hcall⟩
      rw [hc, List.mem_singleton] at hmem
      exact ⟨creds.ZoneID, hmem⟩
  · have h2 : ¬ args.length < 2 := by omega
    simp only [main, h2, if_false, hload, logFatal, List.nil_append,
      List.mem_singleton] at he
    subst he
    simp [Event.isCall] at hcall

theorem main_of_load_error {σ : Type} (env : Env σ) (args : List String) (s : σ)
    (err : GoError)
    (h : (loadCredentials env "cloudflare_credentials.json").2 = some err) :
    (main env args s).value = 1 ∧ (main env args s).state = s ∧
      gatewayCalls (main env args s).trace = [] ∧
      (2 ≤ args.length → (main env args s).trace =
        [Event.stderr ("Error loading credentials: " ++ err ++ "\n")]) := by
  unfold main
  by_cases h2 : args.length < 2
  · rw [if_pos h2]
    exact ⟨rfl, rfl, gatewayCalls_stdout usage, fun h => absurd h (by omega)⟩
  · rw [if_neg h2]
    rcases hload : loadCredentials env "cloudflare_credentials.json" with ⟨creds, _ | err'⟩
    · rw [hload] at h
      cases h
    · rw [hload] at h
      cases h
      exact ⟨rfl, rfl, rfl, fun _ => rfl⟩

theorem decodeMembers_zone_empty (members : List (String × JSONValue))
    (creds : Credentials) (err : Option GoError) (hz : creds.ZoneID = "")
    (h : ∀ kv ∈ members, keyMatches kv.1 "zone_id" = true → kv.2 = JSONValue.string "") :
    (decodeMembers members creds err).1.ZoneID = "" := by
  induction members generalizing creds err with
  | nil => exact hz
  | cons kv rest ih =>
    obtain ⟨key, value⟩ := kv
    have hrest : ∀ kv ∈ rest, keyMatches kv.1 "zone_id" = true →
        kv.2 = JSONValue.string "" := fun kv hkv => h kv (List.mem_cons_of_mem _ hkv)
    have hhead := h (key, value) (List.mem_cons_self _ _)
    unfold decodeMembers
    by_cases h1 : keyMatches key "api_token" = true
    · simp only [h1, if_true]
      cases value with
      | null => exact ih creds err hz hrest
      | string t => exact ih _ err hz hrest
      | other e => exact ih creds _ hz hrest
    · by_cases h2 : keyMatches key "zone_id" = true
      · simp only [h1, h2, if_true, if_false]
        cases value with
        | null => exact ih creds err hz hrest
        | string z =>
          have hzv : z = "" := by
            have := hhead h2
            simp only [JSONValue.string.injEq] at this
            exact this
          exact ih _ err hzv hrest
        | other e => exact ih creds _ hz hrest
      · simp only [h1, h2, if_false]
        exact ih creds err hz hrest

theorem decodeMembers_token_empty (members : List (String × JSONValue))
    (creds : Credentials) (err : Option GoError) (ht : creds.APIToken = "")
    (h : ∀ kv ∈ members, keyMatches kv.1 "api_token" = true → kv.2 = JSONValue.string "") :
    (decodeMembers members creds err).1.APIToken = "" := by
  induction members generalizing creds err with
  | nil => exact ht
  | cons kv rest ih =>
    obtain ⟨key, value⟩ := kv
    have hrest : ∀ kv ∈ rest, keyMatches kv.1 "api_token" = true →
        kv.2 = JSONValue.string "" := fun kv hkv => h kv (List.mem_cons_of_mem _ hkv)
    have hhead := h (key, value) (List.mem_cons_self _ _)
    unfold decodeMembers
    by_cases h1 : keyMatches key "api_token" = true
    · simp only [h1, if_true]
      cases value with
      | null => exact ih creds err ht hrest
      | string t =>
        have htv : t = "" := by
          have := hhead h1
          simp only [JSONValue.string.injEq] at this
          exact this
        exact ih _ err htv hrest
      | other e => exact ih creds _ ht hrest
    · by_cases h2 : keyMatches key "zone_id" = true
      · simp only [h1, h2, if_true, if_false]
        cases value with
        | null => exact ih creds err ht hrest
        | string z => exact ih _ err ht hrest
        | other e => exact ih creds _ ht hrest
      · simp only [h1, h2, if_false]
        exact ih creds err ht hrest

theorem decodeMembers_strings (members : List (String × JSONValue)) (creds : Credentials)
    (h : ∀ kv ∈ members, ∃ v, kv.2 = JSONValue.string v) :
    (decodeMembers members creds none).2 = none := by
  induction members generalizing creds with
  | nil => rfl
  | cons kv rest ih =>
    obtain ⟨key, value⟩ := kv
    obtain ⟨v, hv⟩ := h (key, value) (List.mem_cons_self _ _)
    have hrest : ∀ kv ∈ rest, ∃ v, kv.2 = JSONValue.string v :=
      fun kv hkv => h kv (List.mem_cons_of_mem _ hkv)
    simp only at hv
    subst hv
    unfold decodeMembers
    by_cases h1 : keyMatches key "api_token" = true
    · simp only [h1, if_true]
      exact ih _ hrest
    · by_cases h2 : keyMatches key "zone_id" = true
      · simp only [h1, h2, if_true, if_false]
        exact ih _ hrest
      · simp only [h1, h2, if_false]
        exact ih _ hrest

theorem main_add_eq {σ : Type} (env : Env σ) (args : List String) (s : σ)
    (creds : Credentials) (api : API σ)
    (hadd : args.getD 1 "" = "add") (hlen : 6 ≤ args.length)
    (hload : loadCredentials env "cloudflare_credentials.json" = (creds, none))
    (hnew : env.newWithAPIToken creds.APIToken = Except.ok api) :
    main env args s =
      (let r :=
        if args.getD 2 "" = "TXT" ∧ ':' ∈ (args.getD 4 "").data then
          addSegmentedTXTRecord api creds.ZoneID (args.getD 3 "")
            ((args.take (args.length - 1)).drop 4)
            ((fmtSscanInt (args.getD (args.length - 1) "")).getD 0) s
        else
          addDNSRecord api creds.ZoneID (args.getD 2 "") (args.getD 3 "") (args.getD 4 "")
            ((fmtSscanInt (args.getD (args.length - 1) "")).getD 0) s
      match r.value with
      | some err => ⟨r.state, r.trace ++ [Event.stderr ("Error adding DNS record: " ++ err
          ++ "\n")], 1⟩
      | none => ⟨r.state, r.trace ++ [Event.stdout "DNS record added successfully\n"], 0⟩) := by
  have h2 : ¬ args.length < 2 := by omega
  have h6 : ¬ args.length < 6 := by omega
  have httl : (match fmtSscanInt (args.getD (args.length - 1) "") with
      | some v => v
      | none => 0) = (fmtSscanInt (args.getD (args.length - 1) "")).getD 0 := by
    cases fmtSscanInt (args.getD (args.length - 1) "") <;> rfl
  simp only [main, h2, if_false, hload, hnew, hadd, if_true, h6, httl,
    stringsContains_colon, logFatal]

theorem add_args (prog recordType name c1 : String) (cs : List String) (ttlArg : String) :
    (prog :: "add" :: recordType :: name :: c1 :: (cs ++ [ttlArg])).length = cs.length + 6 ∧
    (prog :: "add" :: recordType :: name :: c1 :: (cs ++ [ttlArg])).getD (cs.length + 5) ""
      = ttlArg ∧
    ((prog :: "add" :: recordType :: name :: c1 :: (cs ++ [ttlArg])).take
      (cs.length + 5)).drop 4 = c1 :: cs := by
  refine ⟨by simp, ?_, ?_⟩
  · simp only [List.getD_cons_succ]
    rw [List.getD_append_right _ _ _ _ (Nat.le_refl _)]
    simp
  · simp only [List.take_succ_cons, List.drop_succ_cons, List.drop_zero]
    rw [show cs.length = cs.length + 0 by rfl, List.take_append]
    simp

/-- C7. For `add <type> <name> <c1> ... <cm> <ttl>` (`m ≥ 1`), once the credentials are
loaded and the client is created: when `<type>` is `TXT` and `<c1>` contains a colon, the
effects of the program are those of `addSegmentedTXTRecord` on exactly the contents
`c1 ... cm` in order (the ttl argument not among them), followed by one closing message;
in every other case they are exactly one create call, with the given type and name and
the content `c1` alone, followed by one closing message. -/
theorem main_add_dispatch {σ : Type} (env : Env σ) (prog recordType name c1 : String)
    (cs : List String) (ttlArg : String) (s : σ) (creds : Credentials) (api : API σ)
    (hload : loadCredentials env "cloudflare_credentials.json" = (creds, none))
    (hnew : env.newWithAPIToken creds.APIToken = Except.ok api) :
    ((recordType = "TXT" ∧ ':' ∈ c1.data) →
      ∃ message,
        (main env (prog :: "add" :: recordType :: name :: c1 :: (cs ++ [ttlArg])) s).trace =
          (addSegmentedTXTRecord api creds.ZoneID name (c1 :: cs)
            ((fmtSscanInt ttlArg).getD 0) s).trace ++ [message] ∧
        message.isCall = false ∧
        (main env (prog :: "add" :: recordType :: name :: c1 :: (cs ++ [ttlArg])) s).state =
          (addSegmentedTXTRecord api creds.ZoneID name (c1 :: cs)
            ((fmtSscanInt ttlArg).getD 0) s).state) ∧
    (¬ (recordType = "TXT" ∧ ':' ∈ c1.data) →
      ∃ message,
        (main env (prog :: "add" :: recordType :: name :: c1 :: (cs ++ [ttlArg])) s).trace =
          [Event.createDNSRecord creds.ZoneID
            ⟨recordType, name, c1, (fmtSscanInt ttlArg).getD 0⟩, message] ∧
        message.isCall = false) := by
  obtain ⟨hlen, hlast, hcontents⟩ := add_args prog recordType name c1 cs ttlArg
  have hmain := main_add_eq env (prog :: "add" :: recordType :: name :: c1 :: (cs ++ [ttlArg]))
    s creds api rfl (by omega) hload hnew
  rw [hlen, show cs.length + 6 - 1 = cs.length + 5 by omega, hlast, hcontents] at hmain
  simp only [List.getD_cons_succ, List.getD_cons_zero] at hmain
  constructor
  · intro hcond
    rw [hmain, if_pos hcond]
    rcases (addSegmentedTXTRecord api creds.ZoneID name (c1 :: cs)
      ((fmtSscanInt ttlArg).getD 0) s).value with _ | err
    · exact ⟨_, rfl, rfl, rfl⟩
    · exact ⟨_, rfl, rfl, rfl⟩
  · intro hcond
    rw [hmain, if_neg hcond]
    rcases hv : (addDNSRecord api creds.ZoneID recordType name c1
      ((fmtSscanInt ttlArg).getD 0) s).value with _ | err
    · exact ⟨_, rfl, rfl⟩
    · exact ⟨_, rfl, rfl⟩

/-- C7 (witness): `add TXT example.com 1:a 2:b 3600` runs the segmented writer on
`1:a` and `2:b`; `add A example.com 192.0.2.1 192.0.2.2 3600` sends `192.0.2.1` alone. -/
theorem main_add_dispatch_witness :
    (∃ message,
      (main (exampleEnv fullCredentials none insertionOrder)
        ["main", "add", "TXT", "example.com", "1:a", "2:b", "3600"] 0).trace =
      [Event.createDNSRecord "zone" ⟨"TXT", "example.com", "1:a", 3600⟩,
       Event.sleep timeSecond,
       Event.createDNSRecord "zone" ⟨"TXT", "example.com", "2:b", 3600⟩,
       Event.sleep timeSecond] ++ [message]) ∧
    (∃ message,
      (main (exampleEnv fullCredentials none insertionOrder)
        ["main", "add", "A", "example.com", "192.0.2.1", "192.0.2.2", "3600"] 0).trace =
      [Event.createDNSRecord "zone" ⟨"A", "example.com", "192.0.2.1", 3600⟩, message]) := by
  obtain ⟨m1, h1, _, _⟩ := (main_add_dispatch (exampleEnv fullCredentials none insertionOrder)
    "main" "TXT" "example.com" "1:a" ["2:b"] "3600" 0 ⟨"token", "zone"⟩ (exampleAPI none)
    rfl rfl).1 ⟨rfl, by decide⟩
  obtain ⟨m2, h2, _⟩ := (main_add_dispatch (exampleEnv fullCredentials none insertionOrder)
    "main" "A" "example.com" "192.0.2.1" ["192.0.2.2"] "3600" 0 ⟨"token", "zone"⟩
    (exampleAPI none) rfl rfl).2 (by decide)
  exact ⟨⟨m1, h1⟩, ⟨m2, h2⟩⟩

theorem scanNumber_none_of_no_digit (buf : List Char) (rest : List Char)
    (h : ∀ c, rest.head? = some c → c ∉ decimalDigits ∧ c ≠ '_') :
    (ss.scanBasePrefix ⟨buf, rest⟩).2.2.scanNumber (ss.scanBasePrefix ⟨buf, rest⟩).1
      (ss.scanBasePrefix ⟨buf, rest⟩).2.1 = none := by
  cases rest with
  | nil => simp [ss.scanBasePrefix, ss.peek, ss.scanNumber]
  | cons c t =>
    obtain ⟨hd, hu⟩ := h c rfl
    have h0 : c ≠ '0' := by
      intro e
      apply hd
      rw [e]
      decide
    have hmem : c ∉ decimalDigits ++ "_".data := by
      intro hm
      rcases List.mem_append.1 hm with hm | hm
      · exact hd hm
      · exact hu (by simpa using hm)
    simp [ss.scanBasePrefix, ss.peek, ss.scanNumber, ss.accept, h0, hmem]

theorem fmtSscanInt_none_of_noNumberAhead (arg : String) (h : noNumberAhead arg = true) :
    fmtSscanInt arg = none := by
  unfold noNumberAhead at h
  unfold fmtSscanInt ss.scanInt ss.SkipSpace
  simp only
  cases hr : arg.data.dropWhile isSpace with
  | nil => simp
  | cons c t =>
    rw [hr] at h
    have hne : ¬ (c :: t = []) := by simp
    simp only [hne, if_false]
    by_cases hs : c = '+' ∨ c = '-'
    · have hmem : c ∈ sign := by
        rcases hs with rfl | rfl <;> decide
      have hs' : (c :: t).head? = some '+' ∨ (c :: t).head? = some '-' := by
        rcases hs with rfl | rfl <;> simp
      simp only [hs', if_true, List.drop_succ_cons, List.drop_zero] at h
      have hacc : (ss.accept ⟨[], c :: t⟩ sign).1 = ⟨[c], t⟩ := by
        simp [ss.accept, hmem]
      rw [hacc, scanNumber_none_of_no_digit]
      intro d hd
      cases t with
      | nil => simp at hd
      | cons d' t' =>
        simp only [List.head?_cons, Option.some.injEq] at hd
        subst hd
        simpa using h
    · have hmem : c ∉ sign := by
        intro hm
        apply hs
        simpa [sign] using hm
      have hs' : ¬ ((c :: t).head? = some '+' ∨ (c :: t).head? = some '-') := by
        simpa using hs
      simp only [hs', if_false] at h
      have hacc : (ss.accept ⟨[], c :: t⟩ sign).1 = ⟨[], c :: t⟩ := by
        simp [ss.accept, hmem]
      rw [hacc, scanNumber_none_of_no_digit]
      intro d hd
      simp only [List.head?_cons, Option.some.injEq] at hd
      subst hd
      simpa using h

theorem decimalDigit_facts (c : Char) (h : c ∈ decimalDigits) :
    ('0' ≤ c ∧ c ≤ '9') ∧ c ≠ '_' ∧ c.toNat - '0'.toNat < 10 ∧ isSpace c = false ∧
      c ∉ sign ∧ c ≠ '+' ∧ c ≠ '-' := by
  simp only [decimalDigits, List.mem_cons, List.mem_singleton, List.not_mem_nil,
    or_false] at h
  rcases h with rfl | rfl | rfl | rfl | rfl | rfl | rfl | rfl | rfl | rfl <;> decide

theorem acceptLoop_append (ok : List Char) (xs : List Char) (buf rest : List Char)
    (hxs : ∀ c ∈ xs, c ∈ ok) (hrest : ∀ c, rest.head? = some c → c ∉ ok) :
    acceptLoop ok buf (xs ++ rest) = ⟨buf ++ xs, rest⟩ := by
  induction xs generalizing buf with
  | nil =>
    cases rest with
    | nil => simp [acceptLoop]
    | cons r t => simp [acceptLoop, hrest r rfl]
  | cons x xs ih =>
    have hx : x ∈ ok := hxs x (List.mem_cons_self _ _)
    have hstep : acceptLoop ok buf (x :: (xs ++ rest)) =
        acceptLoop ok (buf ++ [x]) (xs ++ rest) := by
      simp only [acceptLoop, hx, if_true]
    rw [List.cons_append, hstep,
      ih (buf ++ [x]) (fun c hc => hxs c (List.mem_cons_of_mem _ hc))]
    simp

theorem le_foldl_decimal (ds : List Char) (n : Nat) :
    n ≤ ds.foldl (fun n c => n * 10 + (c.toNat - '0'.toNat)) n := by
  induction ds generalizing n with
  | nil => exact Nat.le_refl _
  | cons c cs ih =>
    simp only [List.foldl_cons]
    exact Nat.le_trans (by omega) (ih _)

theorem parseUintLoop_decimal (ds : List Char) (n : Nat)
    (hds : ∀ c ∈ ds, c ∈ decimalDigits)
    (hval : ds.foldl (fun n c => n * 10 + (c.toNat - '0'.toNat)) n < 2 ^ 64) :
    parseUintLoop 10 ds n false =
      some (ds.foldl (fun n c => n * 10 + (c.toNat - '0'.toNat)) n, false) := by
  induction ds generalizing n with
  | nil => simp [parseUintLoop]
  | cons c cs ih =>
    obtain ⟨hrange, hus, hd, _⟩ := decimalDigit_facts c (hds c (List.mem_cons_self _ _))
    simp only [List.foldl_cons] at hval ⊢
    have hle := le_foldl_decimal cs (n * 10 + (c.toNat - '0'.toNat))
    have hmax : maxUint64 = 18446744073709551615 := by decide
    have h1 : ¬ 10 ≤ c.toNat - '0'.toNat := by omega
    have h2 : ¬ maxUint64 / 10 + 1 ≤ n := by
      rw [hmax]
      omega
    have h3 : ¬ maxUint64 < n * 10 + (c.toNat - '0'.toNat) := by
      rw [hmax]
      omega
    simp only [parseUintLoop, hus, if_false, hrange, and_self, if_true, h1, h2, h3]
    exact ih _ (fun x hx => hds x (List.mem_cons_of_mem _ hx)) hval

theorem fmtSscanInt_decimal (arg : String) (ds rest : List Char)
    (harg : arg.data = ds ++ rest)
    (hne : ds ≠ [])
    (hds : ∀ c ∈ ds, c ∈ decimalDigits)
    (hlead : ds.head? ≠ some '0')
    (hrest : ∀ c, rest.head? = some c → c ∉ decimalDigits ∧ c ≠ '_')
    (hval : decimalValue ds < 2 ^ 63) :
    fmtSscanInt arg = some (decimalValue ds : Int) := by
  cases ds with
  | nil => exact absurd rfl hne
  | cons d ds' =>
    obtain ⟨_, _, _, hsp, hsign, hplus, hminus⟩ :=
      decimalDigit_facts d (hds d (List.mem_cons_self _ _))
    have h0 : d ≠ '0' := by simpa using hlead
    have hd : d ∈ decimalDigits ++ "_".data :=
      List.mem_append_left _ (hds d (List.mem_cons_self _ _))
    have hloop : acceptLoop (decimalDigits ++ "_".data) [d] (ds' ++ rest) =
        ⟨d :: ds', rest⟩ := by
      rw [acceptLoop_append]
      · rfl
      · intro c hc
        exact List.mem_append_left _ (hds c (List.mem_cons_of_mem _ hc))
      · intro c hc hm
        rcases List.mem_append.1 hm with hm | hm
        · exact (hrest c hc).1 hm
        · exact (hrest c hc).2 (by simpa using hm)
    have hparse : parseUintLoop 10 (d :: ds') 0 false = some (decimalValue (d :: ds'), false) :=
      parseUintLoop_decimal (d :: ds') 0 hds (Nat.lt_trans hval (by decide))
    have hrange : ¬ 2 ^ 63 ≤ decimalValue (d :: ds') := by omega
    unfold fmtSscanInt ss.scanInt ss.SkipSpace
    simp only [harg, List.cons_append, List.dropWhile_cons, hsp, Bool.false_eq_true,
      if_false]
    simp only [ss.accept, hsign, if_false, ss.scanBasePrefix, ss.peek, ss.scanNumber]
    have hrange' : decimalValue (d :: ds') < 9223372036854775808 := by omega
    simp [h0, hd, hloop, ParseInt, ParseUint, hplus, hminus, hparse, hrange']

theorem main_add_last {σ : Type} (env : Env σ) (front : List String) (last : String) (s : σ)
    (creds : Credentials) (api : API σ)
    (hadd : front.getD 1 "" = "add") (hlen : 5 ≤ front.length)
    (hload : loadCredentials env "cloudflare_credentials.json" = (creds, none))
    (hnew : env.newWithAPIToken creds.APIToken = Except.ok api) :
    main env (front ++ [last]) s =
      (let r :=
        if front.getD 2 "" = "TXT" ∧ ':' ∈ (front.getD 4 "").data then
          addSegmentedTXTRecord api creds.ZoneID (front.getD 3 "") (front.drop 4)
            ((fmtSscanInt last).getD 0) s
        else
          addDNSRecord api creds.ZoneID (front.getD 2 "") (front.getD 3 "") (front.getD 4 "")
            ((fmtSscanInt last).getD 0) s
      match r.value with
      | some err => ⟨r.state, r.trace ++ [Event.stderr ("Error adding DNS record: " ++ err
          ++ "\n")], 1⟩
      | none => ⟨r.state, r.trace ++ [Event.stdout "DNS record added successfully\n"], 0⟩) := by
  have hl : (front ++ [last]).length = front.length + 1 := by simp
  have hg : ∀ i, i < front.length → (front ++ [last]).getD i "" = front.getD i "" :=
    fun i hi => List.getD_append _ _ _ _ hi
  have hlast : (front ++ [last]).getD (front.length + 1 - 1) "" = last := by
    rw [Nat.add_sub_cancel, List.getD_append_right _ _ _ _ (Nat.le_refl _)]
    simp
  have htake : (front ++ [last]).take (front.length + 1 - 1) = front := by
    rw [Nat.add_sub_cancel]
    exact List.take_left' rfl
  rw [main_add_eq env (front ++ [last]) s creds api (by rw [hg 1 (by omega)]; exact hadd)
    (by omega) hload hnew]
  simp only [hl, hlast, htake, hg 2 (by omega), hg 3 (by omega), hg 4 (by omega)]

/-- C8 (counterexample). The last arguments `12abc`, `3600.5` and `0x10` are not numbers,
yet `fmt.Sscan` reads 12, 3600 and 16 from them without error: `add A example.com
192.0.2.1 12abc` sends its record with ttl 12, not 0. -/
theorem add_ttl_reads_leading_number :
    fmtSscanInt "12abc" = some 12 ∧ fmtSscanInt "3600.5" = some 3600 ∧
    fmtSscanInt "0x10" = some 16 ∧
    (main (exampleEnv fullCredentials none insertionOrder)
        ["main", "add", "A", "example.com", "192.0.2.1", "12abc"] 0).trace =
      [Event.createDNSRecord "zone" ⟨"A", "example.com", "192.0.2.1", 12⟩,
       Event.stdout "DNS record added successfully\n"] := by
  refine ⟨by decide, by decide, by decide, by decide⟩

/-- C8 (as amended). For `add` with enough arguments, the ttl of every create call is the
integer `fmt.Sscan` reads at the start of the last argument, and 0 when `fmt.Sscan` reports
an error. A decimal numeral without a leading zero and below `2^63`, at the start of the
argument and followed by nothing or by a character that is neither a digit nor `_`, is
read as its value, whatever comes after it. When `fmt.Sscan` reports an error the run is
the very run of the last argument `0`: the error is not reported and the command goes on.
That is so whenever no number can start in the last argument: after its leading white
space and one optional sign it is at its end or goes on with a character that is neither
a digit nor `_`. -/
theorem main_add_ttl {σ : Type} (env : Env σ) (front : List String) (last : String) (s : σ)
    (hadd : front.getD 1 "" = "add") (hlen : 5 ≤ front.length) :
    (∀ zoneID params,
      Event.createDNSRecord zoneID params ∈ (main env (front ++ [last]) s).trace →
      params.TTL = (fmtSscanInt last).getD 0) ∧
    (∀ ds rest, last.data = ds ++ rest → ds ≠ [] → (∀ c ∈ ds, c ∈ decimalDigits) →
      ds.head? ≠ some '0' → (∀ c, rest.head? = some c → c ∉ decimalDigits ∧ c ≠ '_') →
      decimalValue ds < 2 ^ 63 →
      fmtSscanInt last = some (decimalValue ds : Int)) ∧
    (fmtSscanInt last = none →
      main env (front ++ [last]) s = main env (front ++ ["0"]) s) ∧
    (noNumberAhead last = true → fmtSscanInt last = none) := by
  have h2 : ∀ x : String, ¬ (front ++ [x]).length < 2 := by
    intro x
    simp only [List.length_append, List.length_singleton]
    omega
  have h2' : ¬ front.length + 1 < 2 := by omega
  refine ⟨?_, ?_, ?_, fmtSscanInt_none_of_noNumberAhead last⟩
  · intro zoneID params hmem
    rcases hload : loadCredentials env "cloudflare_credentials.json" with ⟨creds, _ | err⟩
    · rcases hnew : env.newWithAPIToken creds.APIToken with err | api
      · simp [main, h2', hload, hnew, logFatal] at hmem
      · rw [main_add_last env front last s creds api hadd hlen hload hnew] at hmem
        have hr : ∀ r : Run σ (Option GoError),
            Event.createDNSRecord zoneID params ∈
              (match r.value with
                | some err => (⟨r.state, r.trace ++ [Event.stderr
                    ("Error adding DNS record: " ++ err ++ "\n")], 1⟩ : Run σ Nat)
                | none => ⟨r.state, r.trace ++
                    [Event.stdout "DNS record added successfully\n"], 0⟩).trace →
            Event.createDNSRecord zoneID params ∈ r.trace := by
          intro r h
          obtain ⟨st, tr, v⟩ := r
          cases v <;> simpa using h
        have hmem' := hr _ hmem
        by_cases hcond : front.getD 2 "" = "TXT" ∧ ':' ∈ (front.getD 4 "").data
        · rw [if_pos hcond] at hmem'
          rcases addSegmentedTXTRecord_trace_mem _ _ _ _ _ _ _ hmem' with h | ⟨c, _, h⟩
          · cases h
          · cases h
            rfl
        · rw [if_neg hcond] at hmem'
          simp only [addDNSRecord, List.mem_singleton] at hmem'
          cases hmem'
          rfl
    · simp [main, h2', hload, logFatal] at hmem
  · intro ds rest harg hne hds hlead hrest hval
    exact fmtSscanInt_decimal last ds rest harg hne hds hlead hrest hval
  · intro hnone
    have hzero : fmtSscanInt "0" = some 0 := by decide
    rcases hload : loadCredentials env "cloudflare_credentials.json" with ⟨creds, _ | err⟩
    · rcases hnew : env.newWithAPIToken creds.APIToken with err | api
      · simp [main, h2, hload, hnew]
      · rw [main_add_last env front last s creds api hadd hlen hload hnew,
          main_add_last env front "0" s creds api hadd hlen hload hnew, hnone, hzero]
        rfl
    · simp [main, h2, hload]

/-- C8 (witness): `add TXT example.com 1:a 2:b abc` sends both records with ttl 0, as
`add TXT example.com 1:a 2:b 0` does, and ends with success; the last argument `3600` is
read as 3600. -/
theorem main_add_ttl_witness :
    (∀ zoneID params, Event.createDNSRecord zoneID params ∈
        (main (exampleEnv fullCredentials none insertionOrder)
          ["main", "add", "TXT", "example.com", "1:a", "2:b", "abc"] 0).trace →
      params.TTL = 0) ∧
    main (exampleEnv fullCredentials none insertionOrder)
        ["main", "add", "TXT", "example.com", "1:a", "2:b", "abc"] 0 =
      main (exampleEnv fullCredentials none insertionOrder)
        ["main", "add", "TXT", "example.com", "1:a", "2:b", "0"] 0 ∧
    (main (exampleEnv fullCredentials none insertionOrder)
        ["main", "add", "TXT", "example.com", "1:a", "2:b", "abc"] 0).value = 0 ∧
    fmtSscanInt "3600" = some 3600 := by
  have h := main_add_ttl (exampleEnv fullCredentials none insertionOrder)
    ["main", "add", "TXT", "example.com", "1:a", "2:b"] "abc" 0 rfl (by decide)
  have hnone : fmtSscanInt "abc" = none := h.2.2.2 (by decide)
  have h' := main_add_ttl (exampleEnv fullCredentials none insertionOrder)
    ["main", "add", "TXT", "example.com", "1:a", "2:b"] "3600" 0 rfl (by decide)
  refine ⟨?_, h.2.2.1 hnone, by decide, ?_⟩
  · intro zoneID params hmem
    have ht := h.1 zoneID params hmem
    rw [hnone] at ht
    exact ht
  · have hd := h'.2.1 "3600".data [] rfl (by decide) (by decide) (by decide)
      (by intro c hc; simp at hc) (by decide)
    rw [hd]
    decide

/-- C9 (counterexample). A credential file whose zone identifier is empty, and one that
lacks the zone identifier, both load without error, the zone identifier being the empty
string. The program goes on: `get_all` makes its list call and `add` its create call, for
the zone `""`, and the failure reported is the one of that call. -/
theorem loadCredentials_accepts_missing_zone :
    loadCredentials (exampleEnv emptyZoneCredentials none insertionOrder)
      "cloudflare_credentials.json" = (⟨"token", ""⟩, none) ∧
    loadCredentials (exampleEnv missingZoneCredentials none insertionOrder)
      "cloudflare_credentials.json" = (⟨"token", ""⟩, none) ∧
    (main (exampleEnv emptyZoneCredentials none insertionOrder)
      ["main", "get_all"] 0).trace =
        [Event.listDNSRecords "" ⟨""⟩,
         Event.stderr "Error getting DNS records: required missing zone ID\n"] ∧
    (main (exampleEnv missingZoneCredentials none insertionOrder)
      ["main", "add", "A", "example.com", "192.0.2.1", "3600"] 0).trace =
        [Event.createDNSRecord "" ⟨"A", "example.com", "192.0.2.1", 3600⟩,
         Event.stderr "Error adding DNS record: required missing zone ID\n"] := by
  refine ⟨by decide, by decide, by decide, by decide⟩

/-- C9 (as amended). When the credential source cannot be read, or its content cannot be
decoded into the credentials, loading fails with the error of the read or of the decoder,
and the program ends with status 1 without any create or list call; when a command word
is given, its only effect is the message `Error loading credentials: <error>`. A readable
source that is a JSON object whose members are all strings loads without error, whichever
fields it lacks or leaves empty; a field that no member names, or that every member
naming it leaves empty, is loaded as the empty string. -/
theorem main_stops_when_credentials_fail {σ : Type} (env : Env σ) (args : List String)
    (s : σ) :
    (((∃ err, env.readFile "cloudflare_credentials.json" = Except.error err) ∨
        (∃ file, env.readFile "cloudflare_credentials.json" = Except.ok file ∧
          (jsonUnmarshal file ⟨"", ""⟩).2 ≠ none)) →
      ∃ err, (loadCredentials env "cloudflare_credentials.json").2 = some err ∧
        (env.readFile "cloudflare_credentials.json" = Except.error err ∨
          ∃ file, env.readFile "cloudflare_credentials.json" = Except.ok file ∧
            (jsonUnmarshal file ⟨"", ""⟩).2 = some err) ∧
        (main env args s).value = 1 ∧ (main env args s).state = s ∧
        gatewayCalls (main env args s).trace = [] ∧
        (2 ≤ args.length → (main env args s).trace =
          [Event.stderr ("Error loading credentials: " ++ err ++ "\n")])) ∧
    (∀ members, env.readFile "cloudflare_credentials.json"
        = Except.ok (FileContent.object members) →
      (∀ kv ∈ members, ∃ v, kv.2 = JSONValue.string v) →
      (loadCredentials env "cloudflare_credentials.json").2 = none ∧
      ((∀ kv ∈ members, keyMatches kv.1 "zone_id" = true → kv.2 = JSONValue.string "") →
        (loadCredentials env "cloudflare_credentials.json").1.ZoneID = "") ∧
      ((∀ kv ∈ members, keyMatches kv.1 "api_token" = true → kv.2 = JSONValue.string "") →
        (loadCredentials env "cloudflare_credentials.json").1.APIToken = "")) := by
  constructor
  · intro hsrc
    have hfail : ∃ err, (loadCredentials env "cloudflare_credentials.json").2 = some err ∧
        (env.readFile "cloudflare_credentials.json" = Except.error err ∨
          ∃ file, env.readFile "cloudflare_credentials.json" = Except.ok file ∧
            (jsonUnmarshal file ⟨"", ""⟩).2 = some err) := by
      rcases hsrc with ⟨err, herr⟩ | ⟨file, hfile, hdec⟩
      · exact ⟨err, by simp [loadCredentials, herr], Or.inl herr⟩
      · rcases hv : (jsonUnmarshal file ⟨"", ""⟩).2 with _ | err
        · exact absurd hv hdec
        · exact ⟨err, by simp [loadCredentials, hfile, hv], Or.inr ⟨file, hfile, hv⟩⟩
    obtain ⟨err, herr, hwhy⟩ := hfail
    exact ⟨err, herr, hwhy, main_of_load_error env args s err herr⟩
  · intro members hfile hstr
    simp only [loadCredentials, hfile, jsonUnmarshal]
    exact ⟨decodeMembers_strings members _ hstr,
      decodeMembers_zone_empty members _ none rfl,
      decodeMembers_token_empty members _ none rfl⟩

/-- C9 (witness): a credential file that is not JSON stops `add` before any call; the
file without a zone identifier and the file with an empty one load without error, the
zone identifier being the empty string. -/
theorem main_stops_when_credentials_fail_witness :
    (main (exampleEnv (FileContent.invalid "unexpected end of JSON input") none
        insertionOrder) ["main", "add", "A", "example.com", "192.0.2.1", "3600"] 0).value = 1 ∧
    (main (exampleEnv (FileContent.invalid "unexpected end of JSON input") none
        insertionOrder) ["main", "add", "A", "example.com", "192.0.2.1", "3600"] 0).trace =
      [Event.stderr "Error loading credentials: unexpected end of JSON input\n"] ∧
    ((loadCredentials (exampleEnv missingZoneCredentials none insertionOrder)
        "cloudflare_credentials.json").2 = none ∧
      (loadCredentials (exampleEnv missingZoneCredentials none insertionOrder)
        "cloudflare_credentials.json").1.ZoneID = "") ∧
    ((loadCredentials (exampleEnv emptyZoneCredentials none insertionOrder)
        "cloudflare_credentials.json").2 = none ∧
      (loadCredentials (exampleEnv emptyZoneCredentials none insertionOrder)
        "cloudflare_credentials.json").1.ZoneID = "") := by
  obtain ⟨err, herr, _, hval, _, _, htrace⟩ := (main_stops_when_credentials_fail
    (exampleEnv (FileContent.invalid "unexpected end of JSON input") none insertionOrder)
    ["main", "add", "A", "example.com", "192.0.2.1", "3600"] 0).1
    (Or.inr ⟨_, rfl, by decide⟩)
  have herr' : err = "unexpected end of JSON input" := by
    have h : (loadCredentials (exampleEnv (FileContent.invalid "unexpected end of JSON input")
        none insertionOrder) "cloudflare_credentials.json").2
        = some "unexpected end of JSON input" := rfl
    rw [h] at herr
    exact (Option.some.inj herr).symm
  subst herr'
  have hmissing := (main_stops_when_credentials_fail
    (exampleEnv missingZoneCredentials none insertionOrder) [] 0).2
    [("api_token", JSONValue.string "token")] rfl
    (by
      intro kv hkv
      simp only [List.mem_singleton] at hkv
      subst hkv
      exact ⟨"token", rfl⟩)
  have hempty := (main_stops_when_credentials_fail
    (exampleEnv emptyZoneCredentials none insertionOrder) [] 0).2
    [("api_token", JSONValue.string "token"), ("zone_id", JSONValue.string "")] rfl
    (by
      intro kv hkv
      simp only [List.mem_cons, List.mem_singleton, List.not_mem_nil, or_false] at hkv
      rcases hkv with rfl | rfl
      · exact ⟨"token", rfl⟩
      · exact ⟨"", rfl⟩)
  refine ⟨hval, htrace (by decide), ⟨hmissing.1, hmissing.2.1 ?_⟩, ⟨hempty.1, hempty.2.1 ?_⟩⟩
  · intro kv hkv hmatch
    simp only [List.mem_singleton] at hkv
    subst hkv
    exact absurd hmatch (by decide)
  · intro kv hkv hmatch
    simp only [List.mem_cons, List.mem_singleton, List.not_mem_nil, or_false] at hkv
    rcases hkv with rfl | rfl
    · exact absurd hmatch (by decide)
    · rfl

/-- C10 (counterexample). `get ""` passes the argument check, and its one gateway call is
the list call with an empty type filter: the same call as the unfiltered listing that
`get_all` makes. -/
theorem main_get_empty_type_unfiltered :
    gatewayCalls (main (exampleEnv fullCredentials none insertionOrder)
        ["main", "get", ""] 0).trace = [Event.listDNSRecords "zone" ⟨""⟩] ∧
    gatewayCalls (main (exampleEnv fullCredentials none insertionOrder)
        ["main", "get_all"] 0).trace = [Event.listDNSRecords "zone" ⟨""⟩] ∧
    (main (exampleEnv fullCredentials none insertionOrder) ["main", "get", ""] 0).trace =
      (main (exampleEnv fullCredentials none insertionOrder) ["main", "get_all"] 0).trace := by
  refine ⟨by decide, by decide, by decide⟩

/-- C10 (as amended). If no command word is given, or the command word is none of `add`,
`get_all`, `get`, or `add` has fewer than four arguments after it, or `get` has no type
argument, the program ends with status 1, leaves the remote state alone and makes no
create and no list call. For `get <type>`, every gateway call is a list call carrying
the type argument as its filter; once the credentials are loaded and the client is
created there is exactly one such call; and when the type argument is not the empty
string, no call is the unfiltered listing. -/
theorem main_argument_validation {σ : Type} (env : Env σ) (args : List String) (s : σ) :
    ((args.length < 2 ∨
        (args.getD 1 "" ≠ "add" ∧ args.getD 1 "" ≠ "get_all" ∧ args.getD 1 "" ≠ "get") ∨
        (args.getD 1 "" = "add" ∧ args.length < 6) ∨
        (args.getD 1 "" = "get" ∧ args.length < 3)) →
      (main env args s).value = 1 ∧ (main env args s).state = s ∧
        gatewayCalls (main env args s).trace = []) ∧
    ((args.getD 1 "" = "get" ∧ 3 ≤ args.length) →
      (∀ e ∈ gatewayCalls (main env args s).trace,
        ∃ zoneID, e = Event.listDNSRecords zoneID ⟨args.getD 2 ""⟩) ∧
      (∀ creds api, loadCredentials env "cloudflare_credentials.json" = (creds, none) →
        env.newWithAPIToken creds.APIToken = Except.ok api →
        gatewayCalls (main env args s).trace =
          [Event.listDNSRecords creds.ZoneID ⟨args.getD 2 ""⟩]) ∧
      (args.getD 2 "" ≠ "" →
        ∀ zoneID, Event.listDNSRecords zoneID ⟨""⟩ ∉ (main env args s).trace)) := by
  refine ⟨main_usage_failure env args s, ?_⟩
  rintro ⟨hget, hlen⟩
  refine ⟨?_, ?_, ?_⟩
  · intro e he
    obtain ⟨hmem, hcall⟩ := List.mem_filter.1 he
    exact main_get_trace env args s hget hlen e hmem hcall
  · intro creds api hload hnew
    exact main_get_calls env args s creds api hget hlen hload hnew
  · intro hne zoneID hmem
    obtain ⟨z, hz⟩ := main_get_trace env args s hget hlen _ hmem rfl
    simp only [Event.listDNSRecords.injEq, ListDNSRecordsParams.mk.injEq] at hz
    exact hne hz.2.symm

/-- C10 (witness): `add` with three arguments after it fails without a gateway call, and
`get A` makes the one list call filtered by `A`. -/
theorem main_argument_validation_witness :
    ((main (exampleEnv fullCredentials none insertionOrder)
        ["main", "add", "A", "example.com", "192.0.2.1"] 0).value = 1 ∧
      gatewayCalls (main (exampleEnv fullCredentials none insertionOrder)
        ["main", "add", "A", "example.com", "192.0.2.1"] 0).trace = []) ∧
    gatewayCalls (main (exampleEnv fullCredentials none insertionOrder)
        ["main", "get", "A"] 0).trace = [Event.listDNSRecords "zone" ⟨"A"⟩] ∧
    (∀ zoneID, Event.listDNSRecords zoneID ⟨""⟩ ∉
      (main (exampleEnv fullCredentials none insertionOrder) ["main", "get", "A"] 0).trace) :=
  by
  have h1 := (main_argument_validation (exampleEnv fullCredentials none insertionOrder)
    ["main", "add", "A", "example.com", "192.0.2.1"] 0).1
    (Or.inr (Or.inr (Or.inl ⟨rfl, by decide⟩)))
  have h2 := (main_argument_validation (exampleEnv fullCredentials none insertionOrder)
    ["main", "get", "A"] 0).2 ⟨rfl, by decide⟩
  exact ⟨⟨h1.1, h1.2.2⟩, h2.2.1 ⟨"token", "zone"⟩ (exampleAPI none) rfl rfl,
    h2.2.2 (by decide)⟩

end CloudflareAPI
